import Mathlib

/-!
Verification of the indy-agent python core (`src/python/agent.py`,
`src/python/modules/admin.py`, `src/test_suite/tests/connection/manual.py`)
against its natural-language specification.

The development shallowly embeds:
* the JSON value model used by the agent's payloads, together with the
  serializer (`json.dumps` with its default `", "` / `": "` separators) and
  parser (`json.loads`) that `agent.py` delegates to.  The embedding covers
  the JSON fragment the agent exchanges: null, booleans, integers, strings
  whose escapes are `\"` and `\\`, arrays and objects;
* base64url encoding/decoding (`base64.urlsafe_b64encode/b64decode`);
* the signed-field protocol (`Agent.sign_agent_message_field`,
  `Agent.unpack_and_verify_signed_agent_message_field`) over an idealised
  Crypto Provider (spec §6): a deterministic signature scheme whose
  verification succeeds exactly on the bytes signed under the matching key;
* the secure envelope (`Agent.unpack_wire_msg`, `Agent.unpack_agent_message`),
  the inbound processing loop (`Agent.handle_incoming` / `Agent.start`),
  admin-message sending (`Agent.send_admin_message`), module registration
  (`Agent.register_module`), and the connection-handshake steps driven by
  `test_suite/tests/connection/manual.py`.

Exceptions in the python source are embedded as `Option`/`Except` results.
-/

namespace IndyAgent

/-- A JSON value, the payload universe of `json.dumps`/`json.loads` as used by
the agent: message dictionaries, connection blocks, DIDDocs.  Numbers are
integers (the agent's payloads carry no floats). -/
inductive Json where
  | null
  | bool (b : Bool)
  | num (n : Int)
  | str (s : String)
  | arr (elems : List Json)
  | obj (members : List (String × Json))

/-! ## Serialization: the model of `json.dumps` (default separators `", "`, `": "`) -/

/-- One character of a JSON string literal body, escaped the way `json.dumps`
escapes it on the printable-ASCII fragment: only `"` and `\` need escapes. -/
def escChar (c : Char) : List Char :=
  if c = '"' then ['\\', '"']
  else if c = '\\' then ['\\', '\\']
  else [c]

/-- A JSON string literal: quote, escaped body, quote. -/
def strLit (s : String) : List Char :=
  '"' :: (s.toList.flatMap escChar ++ ['"'])

/-- Decimal digits of a natural number, most significant first.  Fuel-based so
that it evaluates by kernel reduction; `natDigs` supplies enough fuel. -/
def natDigsAux : Nat → Nat → List Char
  | 0, _ => []
  | fuel + 1, n =>
    if n < 10 then [Char.ofNat (48 + n)]
    else natDigsAux fuel (n / 10) ++ [Char.ofNat (48 + n % 10)]

/-- Decimal digits of a natural number, most significant first. -/
def natDigs (n : Nat) : List Char := natDigsAux (n + 1) n

/-- The characters `json.dumps` produces for an integer. -/
def intChars (i : Int) : List Char :=
  if i < 0 then '-' :: natDigs i.natAbs else natDigs i.natAbs

mutual
/-- The model of `json.dumps` on a value, producing the character list of the
serialized text (default separators, insertion order preserved). -/
def jdump : Json → List Char
  | .null => "null".toList
  | .bool true => "true".toList
  | .bool false => "false".toList
  | .num i => intChars i
  | .str s => strLit s
  | .arr es => '[' :: (jdumpItems es ++ [']'])
  | .obj ms => '{' :: (jdumpPairs ms ++ ['}'])

/-- Array elements, separated by `", "`. -/
def jdumpItems : List Json → List Char
  | [] => []
  | [e] => jdump e
  | e :: es => jdump e ++ ',' :: ' ' :: jdumpItems es

/-- Object members, `key": "value` pairs separated by `", "`. -/
def jdumpPairs : List (String × Json) → List Char
  | [] => []
  | [(k, v)] => strLit k ++ ':' :: ' ' :: jdump v
  | (k, v) :: ms => strLit k ++ ':' :: ' ' :: jdump v ++ ',' :: ' ' :: jdumpPairs ms
end

/-- `json.dumps` as a string-producing function. -/
def dumps (j : Json) : String := String.mk (jdump j)

/-! ## Parsing: the model of `json.loads` -/

/-- JSON whitespace. -/
def jWs (c : Char) : Bool := c = ' ' || c = '\n' || c = '\t' || c = '\r'

/-- Drop leading JSON whitespace. -/
def dropWs : List Char → List Char
  | [] => []
  | c :: cs => if jWs c then dropWs cs else c :: cs

/-- Decimal digit test. -/
def isDig (c : Char) : Bool := '0' ≤ c && c ≤ '9'

/-- Split a leading run of decimal digits from the rest. -/
def grabDigs : List Char → List Char × List Char
  | [] => ([], [])
  | c :: cs =>
    if isDig c then
      let (ds, r) := grabDigs cs
      (c :: ds, r)
    else ([], c :: cs)

/-- Numeric value of a digit run. -/
def digsVal (ds : List Char) : Nat :=
  ds.foldl (fun a c => a * 10 + (c.toNat - 48)) 0

/-- Parse a string literal body after the opening quote, understanding the
`\"` and `\\` escapes; returns the body characters and the input after the
closing quote. -/
def strBody : List Char → Option (List Char × List Char)
  | [] => none
  | c :: cs =>
    if c = '"' then some ([], cs)
    else if c = '\\' then
      match cs with
      | [] => none
      | e :: cs2 =>
        if e = '"' ∨ e = '\\' then
          (strBody cs2).map (fun p => (e :: p.1, p.2))
        else none
    else (strBody cs).map (fun p => (c :: p.1, p.2))

mutual
/-- One JSON value, fuel-bounded (callers supply fuel exceeding the text
length); returns the value and the unconsumed input. -/
def jparse : Nat → List Char → Option (Json × List Char)
  | 0, _ => none
  | fuel + 1, cs =>
    match dropWs cs with
    | [] => none
    | c :: r =>
      if c = 'n' then
        match r with
        | 'u' :: 'l' :: 'l' :: r2 => some (.null, r2)
        | _ => none
      else if c = 't' then
        match r with
        | 'r' :: 'u' :: 'e' :: r2 => some (.bool true, r2)
        | _ => none
      else if c = 'f' then
        match r with
        | 'a' :: 'l' :: 's' :: 'e' :: r2 => some (.bool false, r2)
        | _ => none
      else if c = '"' then
        (strBody r).map (fun p => (.str (String.mk p.1), p.2))
      else if c = '[' then
        match dropWs r with
        | ']' :: r2 => some (.arr [], r2)
        | r1 => (jparseItems fuel r1).map (fun p => (.arr p.1, p.2))
      else if c = '{' then
        match dropWs r with
        | '}' :: r2 => some (.obj [], r2)
        | r1 => (jparsePairs fuel r1).map (fun p => (.obj p.1, p.2))
      else if c = '-' then
        match grabDigs r with
        | ([], _) => none
        | (ds, r2) => some (.num (-(digsVal ds : Int)), r2)
      else if isDig c then
        match grabDigs (c :: r) with
        | (ds, r2) => some (.num (digsVal ds), r2)
      else none

/-- One-or-more comma-separated array elements followed by `]`. -/
def jparseItems : Nat → List Char → Option (List Json × List Char)
  | 0, _ => none
  | fuel + 1, cs =>
    match jparse fuel cs with
    | none => none
    | some (v, r) =>
      match dropWs r with
      | ']' :: r2 => some ([v], r2)
      | ',' :: r2 =>
        match jparseItems fuel r2 with
        | some (vs, r3) => some (v :: vs, r3)
        | none => none
      | _ => none

/-- One-or-more `"key": value` members followed by `}`. -/
def jparsePairs : Nat → List Char → Option (List (String × Json) × List Char)
  | 0, _ => none
  | fuel + 1, cs =>
    match dropWs cs with
    | '"' :: r =>
      match strBody r with
      | none => none
      | some (kb, r1) =>
        match dropWs r1 with
        | ':' :: r2 =>
          match jparse fuel r2 with
          | none => none
          | some (v, r3) =>
            match dropWs r3 with
            | '}' :: r4 => some ([(String.mk kb, v)], r4)
            | ',' :: r4 =>
              match jparsePairs fuel r4 with
              | some (ms, r5) => some ((String.mk kb, v) :: ms, r5)
              | none => none
            | _ => none
        | _ => none
    | _ => none
end

/-- The model of `json.loads`: parse the whole text, rejecting trailing
garbage (as python's `json.loads` does). -/
def loads (s : String) : Option Json :=
  match jparse (s.length + 1) s.toList with
  | some (j, r) => if dropWs r = [] then some j else none
  | none => none

/-! ## Round trip: `loads (dumps j) = some j`

`agent.py` relies on `json.loads` inverting `json.dumps` when a signed field
comes back (`sign_agent_message_field` / `unpack_and_verify_signed_agent_message_field`).
The lemmas below establish the inversion for the embedded fragment. -/

/-- `true` iff the input cannot extend a just-parsed number: empty, or headed
by a non-digit.  Every delimiter the serializer emits after a value
(`,`, `]`, `}`, end of input) qualifies. -/
def numStop : List Char → Bool
  | [] => true
  | c :: _ => !isDig c

/-! ## Bytes, text encoding, base64url

`agent.py` moves between `str` and `bytes` with `.encode('ascii')`,
`.encode('utf-8')` and `base64.urlsafe_b64encode`/`b64decode`.  Bytes are
embedded as `Fin 256`. -/

/-- A byte. -/
abbrev Byte := Fin 256

/-- The bytes of a string under `encode('ascii')` / `encode('utf-8')`
(faithful on ASCII text, which is all the agent produces: `json.dumps`
output with `ensure_ascii`, base58 verkeys, base64url text). -/
def strBytes (s : String) : List Byte :=
  s.toList.map (fun c => ⟨c.toNat % 256, Nat.mod_lt _ (by norm_num)⟩)

/-- Bytes back to characters (the inverse of `strBytes` on ASCII). -/
def bytesChars (bs : List Byte) : List Char :=
  bs.map (fun b => Char.ofNat b.val)

/-- Bytes back to a string. -/
def bytesStr (bs : List Byte) : String := String.mk (bytesChars bs)

/-- ASCII test for a string. -/
def asciiStr (s : String) : Bool := s.toList.all (fun c => c.toNat < 128)

mutual
/-- The embedded payloads this development makes claims about: JSON values
all of whose strings (and keys) are ASCII, matching the `encode('ascii')`
step in `sign_agent_message_field` and the escape-free fragment of the
serializer model. -/
def jwf : Json → Bool
  | .null => true
  | .bool _ => true
  | .num _ => true
  | .str s => asciiStr s
  | .arr es => jwfItems es
  | .obj ms => jwfPairs ms

/-- `jwf` on every array element. -/
def jwfItems : List Json → Bool
  | [] => true
  | e :: es => jwf e && jwfItems es

/-- `jwf` on every member key and value. -/
def jwfPairs : List (String × Json) → Bool
  | [] => true
  | (k, v) :: ms => asciiStr k && jwf v && jwfPairs ms
end

/-- Shorthand: every character of the list is ASCII. -/
abbrev asciiL (l : List Char) : Prop := ∀ c ∈ l, c.toNat < 128

/-! ## base64url: the model of `base64.urlsafe_b64encode` / `urlsafe_b64decode`

The decoder requires input over the base64url alphabet with correct `=`
padding (python's decoder additionally discards foreign characters before
the length check; no claim here depends on such inputs). -/

/-- A byte from a natural number (wrapping, as python's `% 256` does). -/
def mkByte (n : Nat) : Byte := ⟨n % 256, Nat.mod_lt _ (by norm_num)⟩

/-- The base64url alphabet character for a 6-bit value. -/
def b64Char (n : Nat) : Char :=
  if n < 26 then Char.ofNat (65 + n)
  else if n < 52 then Char.ofNat (97 + (n - 26))
  else if n < 62 then Char.ofNat (48 + (n - 52))
  else if n = 62 then '-'
  else '_'

/-- The 6-bit value of a base64url alphabet character. -/
def b64Val (c : Char) : Option Nat :=
  if 65 ≤ c.toNat ∧ c.toNat ≤ 90 then some (c.toNat - 65)
  else if 97 ≤ c.toNat ∧ c.toNat ≤ 122 then some (c.toNat - 97 + 26)
  else if 48 ≤ c.toNat ∧ c.toNat ≤ 57 then some (c.toNat - 48 + 52)
  else if c = '-' then some 62
  else if c = '_' then some 63
  else none

/-- base64url-encode a byte list (with `=` padding), as characters. -/
def b64EncodeL : List Byte → List Char
  | [] => []
  | [b1] => [b64Char (b1.val / 4), b64Char (b1.val % 4 * 16), '=', '=']
  | [b1, b2] =>
    [b64Char (b1.val / 4), b64Char (b1.val % 4 * 16 + b2.val / 16),
     b64Char (b2.val % 16 * 4), '=']
  | b1 :: b2 :: b3 :: rest =>
    b64Char (b1.val / 4) :: b64Char (b1.val % 4 * 16 + b2.val / 16)
      :: b64Char (b2.val % 16 * 4 + b3.val / 64) :: b64Char (b3.val % 64)
      :: b64EncodeL rest

/-- Decode one base64url quartet `c1 c2 c3 c4` (with possible `=` padding in
the last two positions), prepending its bytes to the decoded remainder. -/
def b64Quad (c1 c2 c3 c4 : Char) (rest : List Char)
    (restBytes : Option (List Byte)) : Option (List Byte) :=
  match b64Val c1, b64Val c2 with
  | some v1, some v2 =>
    if c3 = '=' then
      if c4 = '=' ∧ rest = [] then some [mkByte (v1 * 4 + v2 / 16)] else none
    else
      match b64Val c3 with
      | some v3 =>
        if c4 = '=' then
          if rest = [] then
            some [mkByte (v1 * 4 + v2 / 16), mkByte (v2 % 16 * 16 + v3 / 4)]
          else none
        else
          match b64Val c4, restBytes with
          | some v4, some bs =>
            some (mkByte (v1 * 4 + v2 / 16) :: mkByte (v2 % 16 * 16 + v3 / 4)
              :: mkByte (v3 % 4 * 64 + v4) :: bs)
          | _, _ => none
      | none => none
  | _, _ => none

/-- base64url-decode characters into bytes (input length must be a multiple
of four over the alphabet, `=`-padded, as python's decoder requires). -/
def b64DecodeL : List Char → Option (List Byte)
  | [] => some []
  | c1 :: c2 :: c3 :: c4 :: rest => b64Quad c1 c2 c3 c4 rest (b64DecodeL rest)
  | _ => none

/-- `base64.urlsafe_b64encode(..).decode('ascii')`: bytes to base64url text. -/
def b64encode (bs : List Byte) : String := String.mk (b64EncodeL bs)

/-- `base64.urlsafe_b64decode`: base64url text to bytes, or a decode error. -/
def b64decode (s : String) : Option (List Byte) := b64DecodeL s.toList

/-! ## The 8-byte big-endian timestamp: `struct.pack(">Q", int(time.time()))` -/

/-- `struct.pack(">Q", t)`: eight big-endian bytes of `t mod 2^64`. -/
def packQ (t : Nat) : List Byte :=
  [mkByte (t / 2 ^ 56), mkByte (t / 2 ^ 48), mkByte (t / 2 ^ 40), mkByte (t / 2 ^ 32),
   mkByte (t / 2 ^ 24), mkByte (t / 2 ^ 16), mkByte (t / 2 ^ 8), mkByte t]

/-- The big-endian value of a byte list (`struct.unpack(">Q", ...)` on 8 bytes). -/
def beNat (bs : List Byte) : Nat := bs.foldl (fun a b => a * 256 + b.val) 0

/-! ## The Crypto Provider, idealised

`agent.py` delegates `crypto.crypto_sign` / `crypto.crypto_verify` to the
external Crypto Provider (spec §6).  Modelled from the spec: an idealised
deterministic signature scheme in which a signature is an injective function
of the signer's verkey and the exact signed bytes, and verification succeeds
precisely on that pair — the standard symbolic model of an unforgeable
signature. -/

/-- `crypto.crypto_sign(wallet, my_vk, bytes)`: the idealised signature bytes
over `data` by the key pair whose verkey is `my_vk`. -/
def crypto_sign_bytes (my_vk : String) (data : List Byte) : List Byte :=
  List.replicate my_vk.length (1 : Byte) ++ (0 : Byte) :: (strBytes my_vk ++ data)

/-- `crypto.crypto_verify(signer, data, sig)`: succeeds exactly when `sig`
is the signature of `data` under `signer`. -/
def crypto_verify (signer : String) (data sig : List Byte) : Bool :=
  decide (sig = crypto_sign_bytes signer data)

/-! ## The Signed-Field Protocol (`agent.py:144-177`) -/

/-- The `@type` URI set by `sign_agent_message_field`. -/
def sigFieldType : String :=
  "did:sov:BzCbsNYhMrjHiqZDTUASHg;spec/signature/1.0/ed25519Sha512_single"

/-- The dictionary returned by `Agent.sign_agent_message_field`. -/
structure SignedField where
  type : String
  signer : String
  sig_data : String
  signature : String

/-- `Agent.sign_agent_message_field(field_value, my_vk)` (`agent.py:144-164`).
The wall-clock reading `int(time.time())` is the explicit parameter `now`. -/
def sign_agent_message_field (now : Nat) (field_value : Json) (my_vk : String) :
    SignedField :=
  let timestamp_bytes := packQ now
  let sig_data_bytes := timestamp_bytes ++ strBytes (dumps field_value)
  let sig_data := b64encode sig_data_bytes
  let signature_bytes := crypto_sign_bytes my_vk sig_data_bytes
  let signature := b64encode signature_bytes
  { type := sigFieldType
    signer := my_vk
    sig_data := sig_data
    signature := signature }

/-- The distinct failure modes of
`Agent.unpack_and_verify_signed_agent_message_field`, each an exception in
the python source: `binascii.Error` from `base64.urlsafe_b64decode`,
`struct.error` from `struct.unpack(">Q", ...)` on fewer than 8 bytes, and
`json.JSONDecodeError` from `json.loads`. -/
inductive FieldErr where
  | badBase64
  | shortData
  | badJson
deriving DecidableEq

/-- `Agent.unpack_and_verify_signed_agent_message_field(signed_field)`
(`agent.py:166-177`): base64url-decode `signature` and `sig_data`, call the
Crypto Provider's verify on `(signer, sig_data bytes, signature bytes)`,
decode `sig_data` once more, split off the first eight bytes (the discarded
timestamp), parse the remainder as JSON, and return `(payload, verified)`.
Python exceptions are the `Except.error` cases. -/
def unpack_and_verify_signed_agent_message_field (signed_field : SignedField) :
    Except FieldErr (Json × Bool) :=
  match b64decode signed_field.signature with
  | none => .error .badBase64
  | some signature_bytes =>
    match b64decode signed_field.sig_data with
    | none => .error .badBase64
    | some sig_data_bytes =>
      let sig_verified := crypto_verify signed_field.signer sig_data_bytes signature_bytes
      match b64decode signed_field.sig_data with
      | none => .error .badBase64
      | some data_bytes =>
        if data_bytes.length < 8 then .error .shortData
        else
          match loads (bytesStr (data_bytes.drop 8)) with
          | none => .error .badJson
          | some fieldjson => .ok (fieldjson, sig_verified)

/-! ## Message model (`python_agent_utils.messages.message.Message`) and
Serializer (`serializer.json_serializer.JSONSerializer`) -/

/-- The non-serialized context attached to a message after unpacking
(`agent.py:200-205`): everything optional except `to_key`
(`unpacked['recipient_verkey']`, whose absence would already have raised
inside `unpack_agent_message`). -/
structure MsgContext where
  from_did : Option String
  to_did : Option String
  from_key : Option String
  to_key : String

/-- A protocol message: an ordered key-unique mapping plus the optional
out-of-band context. -/
structure Msg where
  entries : List (String × Json)
  context : Option MsgContext

/-- `msg[key]` lookup. -/
def msgLookup (m : Msg) (k : String) : Option Json :=
  (m.entries.find? (fun kv => kv.1 == k)).map (fun kv => kv.2)

/-- `key in msg`. -/
def msgHasKey (m : Msg) (k : String) : Bool := (msgLookup m k).isSome

/-- `msg[key] = v`: replace in place, or append a new binding. -/
def msgSet (m : Msg) (k : String) (v : Json) : Msg :=
  { m with entries :=
      if (m.entries.find? (fun kv => kv.1 == k)).isSome then
        m.entries.map (fun kv => if kv.1 == k then (k, v) else kv)
      else m.entries ++ [(k, v)] }

/-- `del msg[key]`. -/
def msgDel (m : Msg) (k : String) : Msg :=
  { m with entries := m.entries.filter (fun kv => !(kv.1 == k)) }

/-- Modelled from the spec: `JSONSerializer.deserialize` is not under `src/`
(only its callers are); §2 Serializer: lossless mapping ↔ wire-text
conversion, and §3: context is never present before unpacking.  Wire text
parses to a `Msg` exactly when it is a JSON object; the fresh message
carries no context. -/
def deserialize (s : String) : Option Msg :=
  match loads s with
  | some (.obj ms) => some { entries := ms, context := none }
  | _ => none

/-- Modelled from the spec: `JSONSerializer.serialize`, the inverse
direction of the lossless serializer. -/
def serialize (m : Msg) : String := dumps (.obj m.entries)

/-- Modelled from the spec: `Message.as_json` used by `send_admin_message`
(`agent.py:258`), the same lossless serialization. -/
def Msg.as_json (m : Msg) : String := serialize m

/-! ## External collaborators of the Secure Envelope (spec §6)

The indy Crypto Provider and Identity Store are external capabilities; the
agent functions are parameterised over them. -/

/-- The result shape of the Crypto Provider's `unpack_message`:
`{message, recipient_verkey, sender_verkey?}` (spec §6). -/
structure UnpackedEnv where
  message : String
  recipient_verkey : String
  sender_verkey : Option String

/-- The external collaborators consumed by the agent: `crypto.unpack_message`
(`none` = the indy call raised), `indy_sdk_utils.did_for_key` (`none` = no
local identity for this verkey), and `crypto.pack_message`. -/
structure AgentEnv where
  unpack_message : String → Option UnpackedEnv
  did_for_key : String → Option String
  pack_message : String → List String → Option String → String

/-- `Agent.unpack_agent_message(wire_msg_bytes)` (`agent.py:179-206`):
authenticated decryption via the Crypto Provider, identity resolution of
both verkeys, deserialization of the inner message, and attachment of the
context `{from_did, to_did, from_key, to_key}`. -/
def unpack_agent_message (env : AgentEnv) (wire_msg : String) : Option Msg :=
  match env.unpack_message wire_msg with
  | none => none
  | some unpacked =>
    let from_key := unpacked.sender_verkey
    let from_did := unpacked.sender_verkey.bind env.did_for_key
    let to_key := unpacked.recipient_verkey
    let to_did := env.did_for_key unpacked.recipient_verkey
    match deserialize unpacked.message with
    | none => none
    | some msg =>
      let ctx := MsgContext.mk from_did to_did from_key to_key
      some { msg with context := some ctx }

/-- `Agent.unpack_wire_msg(wire_msg)` (`agent.py:262-281`): first attempt a
plaintext parse; if it yields a `Msg` containing `@type`, return it as is;
otherwise attempt authenticated decryption; if that also fails, return
`none` (the python function returns `None`, it does not raise). -/
def unpack_wire_msg (env : AgentEnv) (wire_msg : String) : Option Msg :=
  match deserialize wire_msg with
  | some msg =>
    if msgHasKey msg "@type" then some msg
    else unpack_agent_message env wire_msg
  | none => unpack_agent_message env wire_msg

/-! ## The inbound processing loop (`agent.py:62-77`) -/

/-- What one pass of `Agent.handle_incoming` does with one queued wire
message: route the unpacked message (returning the handler response), drop
it silently when unpacking yields nothing, or catch-and-log an exception
raised while processing (`agent.py:69-71`). -/
inductive Outcome where
  | routed (resp : Option Msg)
  | dropped
  | caught (e : String)

/-- `Agent.handle_incoming` on one dequeued wire message: the entire body
runs inside `try/except`, so the result is always a value, never an
escaping exception.  `route` is `Agent.route_message_to_module`
(`family_router.route`), which may raise (`Except.error`). -/
def handle_incoming (env : AgentEnv) (route : Msg → Except String (Option Msg))
    (wire_msg : String) : Outcome :=
  match unpack_wire_msg env wire_msg with
  | none => .dropped
  | some msg =>
    match route msg with
    | .ok resp => .routed resp
    | .error e => .caught e

/-- `Agent.start`: the message-processing loop, `while True: await
self.handle_incoming()`, embodied on a finite arrival sequence: one outcome
per queued message, in arrival order. -/
def start (env : AgentEnv) (route : Msg → Except String (Option Msg)) :
    List String → List Outcome
  | [] => []
  | w :: queue => handle_incoming env route w :: start env route queue

/-! ## Admin messages (`agent.py:243-260`) -/

/-- The agent state touched by `send_admin_message`: the two admin keys set
by `setup_admin` and the outbound admin queue. -/
structure AdminSt where
  admin_key : Option String
  agent_admin_key : Option String
  outbound_admin_message_queue : List String

/-- `Agent.send_admin_message(msg)` (`agent.py:248-260`): pack (encrypt) to
the admin key with the agent admin key as sender only when both keys are
set; otherwise enqueue the plaintext JSON. -/
def send_admin_message (env : AgentEnv) (st : AdminSt) (msg : Msg) : AdminSt :=
  let out :=
    match st.agent_admin_key, st.admin_key with
    | some aak, some ak => env.pack_message (serialize msg) [ak] (some aak)
    | _, _ => Msg.as_json msg
  { st with outbound_admin_message_queue := st.outbound_admin_message_queue ++ [out] }

/-! ## Module registration (`agent.py:48-50`) -/

/-- The registration state: the agent-side `self.modules` cache and the
family router's table, both keyed by a family identifier. -/
structure RegState (M : Type) where
  modules : List (String × M)
  router : List (String × M)

/-- Association-list lookup (python dict read). -/
def assocLookup {M : Type} (l : List (String × M)) (k : String) : Option M :=
  (l.find? (fun kv => kv.1 == k)).map (fun kv => kv.2)

/-- Association-list write (python dict assignment: silently replaces). -/
def assocSet {M : Type} (l : List (String × M)) (k : String) (v : M) :
    List (String × M) :=
  if (l.find? (fun kv => kv.1 == k)).isSome then
    l.map (fun kv => if kv.1 == k then (k, v) else kv)
  else l ++ [(k, v)]

/-- Modelled from the spec: `FamilyRouter.register` is not under `src/`
(only its caller `Agent.register_module` is); §4.3: `register(familyId,
module)` rejects (error) a duplicate familyId, otherwise adds the mapping. -/
def family_router_register {M : Type} (router : List (String × M))
    (family : String) (m : M) : Except String (List (String × M)) :=
  if (assocLookup router family).isSome then .error "duplicate familyId"
  else .ok (router ++ [(family, m)])

/-- `Agent.register_module` (`agent.py:48-50`): store the module in the
agent's `modules` dict (line 49, a plain dict assignment), then register it
with the family router (line 50).  The returned pair is (outcome, state
after): on a duplicate-family error the dict assignment has already
happened, the router table is unchanged. -/
def register_module {M : Type} (st : RegState M) (family : String) (m : M) :
    Except String Unit × RegState M :=
  let modules2 := assocSet st.modules family m
  match family_router_register st.router family m with
  | .error e => (.error e, { modules := modules2, router := st.router })
  | .ok r2 => (.ok (), { modules := modules2, router := r2 })

/-! ## Connection handshake (`test_suite/tests/connection/manual.py`) -/

/-- Lookup inside a JSON object value. -/
def jLookup (j : Json) (k : String) : Option Json :=
  match j with
  | .obj ms => ((ms.find? (fun kv => kv.1 == k)).map (fun kv => kv.2))
  | _ => none

/-- Project a JSON string. -/
def jStr : Json → Option String
  | .str s => some s
  | _ => none

/-- The signed field as it is stored inside a message. -/
def SignedField.toJson (sf : SignedField) : Json :=
  .obj [("@type", .str sf.type), ("signer", .str sf.signer),
        ("sig_data", .str sf.sig_data), ("signature", .str sf.signature)]

/-- Read a signed field back out of a message value. -/
def sfOfJson (j : Json) : Option SignedField :=
  match (jLookup j "@type").bind jStr, (jLookup j "signer").bind jStr,
      (jLookup j "sig_data").bind jStr, (jLookup j "signature").bind jStr with
  | some t, some sg, some sd, some s =>
    some { type := t, signer := sg, sig_data := sd, signature := s }
  | _, _, _, _ => none

/-- The `@type` of a Connection Response. -/
def connResponseType : String :=
  "did:sov:BzCbsNYhMrjHiqZDTUASHg;spec/connections/1.0/response"

/-- Modelled from the spec: `DIDDoc` (glossary: a document binding a DID to
its current keys and service endpoint; §3: embeds the sender's DID, the
same verification key, and the sender's service endpoint);
`test_suite.tests.did_doc` is not under `src/`. -/
def didDocJson (did vk endpoint : String) : Json :=
  .obj [("did", .str did), ("verkey", .str vk), ("endpoint", .str endpoint)]

/-- Modelled from the spec: `Connection.Response.build(req_id, my_did,
my_vk, endpoint)` is not under `src/`; §3 Connection Response: `{@type, @id
(= request's @id), connection}` with the cleartext `connection = {DID,
DIDDoc}` present before signing. -/
def connection_response_build (req_id my_did my_vk endpoint : String) : Msg :=
  { entries :=
      [("@type", .str connResponseType),
       ("@id", .str req_id),
       ("connection", .obj [("DID", .str my_did),
                            ("DIDDoc", didDocJson my_did my_vk endpoint)])]
    context := none }

/-- The inviter's response construction, `get_connection_started_by_suite`
(`manual.py:87-92`): build the Response threaded on the request's `@id`,
sign `response['connection']` with the invitation's one-time key
(`connection_key`), store it as `connection~sig`, and delete the cleartext
`connection` field. -/
def suite_build_response (now : Nat)
    (req_id connection_key my_did my_vk endpoint : String) : Msg :=
  let response := connection_response_build req_id my_did my_vk endpoint
  let connection := (msgLookup response "connection").getD .null
  let sig := sign_agent_message_field now connection connection_key
  let response := msgSet response "connection~sig" sig.toJson
  msgDel response "connection"

/-- The distinct invitee-side handshake failures (spec §7). -/
inductive HsErr where
  | preSigInvalid
  | malformedSig
  | sigFailed
  | postInvalid
  | verifyErr (e : FieldErr)
deriving DecidableEq

/-- Modelled from the spec: `Connection.Response.validate_pre_sig(response)`
is not under `src/`; §4.4: validate structural shape before signature
verification.  Its call site (`manual.py:52`) passes the response alone —
without the original request's `@id` — so the check covers the shape
available in the response itself: the `connection~sig` field is present. -/
def response_validate_pre_sig (response : Msg) : Bool :=
  msgHasKey response "connection~sig"

/-- Modelled from the spec: `get_verified_data_from_signed_field` is not
under `src/`; §4.1 verify, surfacing a failed verification instead of
returning data. -/
def get_verified_data_from_signed_field (sf : SignedField) : Except HsErr Json :=
  match unpack_and_verify_signed_agent_message_field sf with
  | .error e => .error (.verifyErr e)
  | .ok (payload, verified) => if verified then .ok payload else .error .sigFailed

/-- Modelled from the spec: `Connection.Response.validate(response, req_id)`
is not under `src/`; §4.4: full validation against the reconstructed
plaintext — `@id` equals the original Request's `@id`, and the
`connection` block carries a `DID` consistent with its `DIDDoc`'s
DID/key/endpoint. -/
def response_validate (response : Msg) (req_id : String) : Bool :=
  match (msgLookup response "@id").bind jStr with
  | none => false
  | some rid =>
    rid == req_id &&
    (match msgLookup response "connection" with
     | none => false
     | some conn =>
       match (jLookup conn "DID").bind jStr,
           ((jLookup conn "DIDDoc").bind (fun d => jLookup d "did")).bind jStr,
           ((jLookup conn "DIDDoc").bind (fun d => jLookup d "verkey")).bind jStr,
           ((jLookup conn "DIDDoc").bind (fun d => jLookup d "endpoint")).bind jStr with
       | some did, some dddid, some _, some _ => did == dddid
       | _, _, _, _ => false)

/-- The invitee's handling of an inbound Response,
`test_connection_started_by_tested_agent` (`manual.py:52-57`): structural
pre-signature validation, then signature verification of `connection~sig`,
then reconstruction of `connection` from the verified payload, then full
validation (including the `@id` match) against the reconstructed
plaintext.  `ResponseVerified` is reached exactly on `Except.ok`. -/
def invitee_handle_response (req_id : String) (response : Msg) : Except HsErr Msg :=
  match response_validate_pre_sig response,
      (msgLookup response "connection~sig").bind sfOfJson with
  | false, _ => .error .preSigInvalid
  | true, none => .error .malformedSig
  | true, some sf =>
    match get_verified_data_from_signed_field sf with
    | .error e => .error e
    | .ok connection =>
      match response_validate (msgSet response "connection" connection) req_id with
      | true => .ok (msgSet response "connection" connection)
      | false => .error .postInvalid

/-- A concrete stub for the external collaborators: decryption always fails,
no verkey resolves, packing is the identity on the plaintext. -/
def envStub : AgentEnv :=
  { unpack_message := fun _ => none
    did_for_key := fun _ => none
    pack_message := fun s _ _ => s }

/-- A concrete stub for the external collaborators whose decryption always
succeeds with a fixed recipient verkey and an anonymous sender. -/
def envOk : AgentEnv :=
  { unpack_message := fun _ =>
      some { message := "\x7b\"a\": 1\x7d", recipient_verkey := "rk", sender_verkey := none }
    did_for_key := fun _ => none
    pack_message := fun s _ _ => s }

/-- A routing stub that accepts every message and produces no response. -/
def routeStub : Msg → Except String (Option Msg) := fun _ => .ok none

/-! ## Theorems -/

theorem digitChar_spec : ∀ n, n < 10 →
    (Char.ofNat (48 + n)).toNat = 48 + n ∧ isDig (Char.ofNat (48 + n)) = true := by
  decide

theorem natDigsAux_ne_nil {fuel n : Nat} (h : n < fuel) : natDigsAux fuel n ≠ [] := by
  cases fuel with
  | zero => omega
  | succ f =>
    rw [natDigsAux]
    by_cases h10 : n < 10 <;> simp [h10]

theorem natDigsAux_digits {fuel : Nat} : ∀ {n : Nat}, n < fuel →
    ∀ c ∈ natDigsAux fuel n, isDig c = true := by
  induction fuel with
  | zero => omega
  | succ f ih =>
    intro n h c hc
    rw [natDigsAux] at hc
    by_cases h10 : n < 10
    · rw [if_pos h10] at hc
      rcases List.mem_singleton.mp hc with rfl
      exact (digitChar_spec n h10).2
    · rw [if_neg h10] at hc
      rcases List.mem_append.mp hc with h1 | h2
      · exact ih (by omega) c h1
      · rcases List.mem_singleton.mp h2 with rfl
        exact (digitChar_spec (n % 10) (Nat.mod_lt _ (by omega))).2

theorem natDigsAux_foldl {fuel : Nat} : ∀ {n : Nat}, n < fuel → ∀ a : Nat,
    (natDigsAux fuel n).foldl (fun x c => x * 10 + (c.toNat - 48)) a
      = a * 10 ^ (natDigsAux fuel n).length + n := by
  induction fuel with
  | zero => omega
  | succ f ih =>
    intro n h a
    rw [natDigsAux]
    by_cases h10 : n < 10
    · rw [if_pos h10]
      simp [List.foldl_cons, (digitChar_spec n h10).1]
    · rw [if_neg h10]
      rw [List.foldl_append, ih (show n / 10 < f by omega) a]
      simp only [List.foldl_cons, List.foldl_nil, List.length_append,
        List.length_singleton]
      rw [(digitChar_spec (n % 10) (Nat.mod_lt _ (by omega))).1]
      rw [pow_succ]
      have : 48 + n % 10 - 48 = n % 10 := by omega
      rw [this]
      have hmod : n / 10 * 10 + n % 10 = n := by omega
      ring_nf
      omega

theorem digsVal_natDigs (n : Nat) : digsVal (natDigs n) = n := by
  have := @natDigsAux_foldl (n + 1) n (by omega) 0
  simpa [digsVal, natDigs] using this

theorem natDigs_ne_nil (n : Nat) : natDigs n ≠ [] :=
  natDigsAux_ne_nil (by omega)

theorem natDigs_digits (n : Nat) : ∀ c ∈ natDigs n, isDig c = true :=
  natDigsAux_digits (by omega)

theorem grabDigs_stop {cs : List Char} (h : numStop cs = true) :
    grabDigs cs = ([], cs) := by
  cases cs with
  | nil => rfl
  | cons c t =>
    simp only [numStop, Bool.not_eq_true'] at h
    simp [grabDigs, h]

theorem grabDigs_run {ds : List Char} (hds : ∀ c ∈ ds, isDig c = true)
    {rest : List Char} (hrest : numStop rest = true) :
    grabDigs (ds ++ rest) = (ds, rest) := by
  induction ds with
  | nil => simpa using grabDigs_stop hrest
  | cons c t ih =>
    obtain ⟨hc, htail⟩ := List.forall_mem_cons.mp hds
    simp [grabDigs, hc, ih htail]

theorem strBody_esc (c : Char) (rest : List Char) :
    strBody (escChar c ++ rest) = (strBody rest).map (fun p => (c :: p.1, p.2)) := by
  by_cases hq : c = '"'
  · subst hq; rfl
  · by_cases hb : c = '\\'
    · subst hb; rfl
    · rw [show escChar c ++ rest = c :: rest by simp [escChar, hq, hb]]
      rw [strBody.eq_def]
      simp [hq, hb]

theorem strBody_lit (s : List Char) : ∀ rest : List Char,
    strBody (s.flatMap escChar ++ '"' :: rest) = some (s, rest) := by
  induction s with
  | nil =>
    intro rest
    simp only [List.flatMap_nil, List.nil_append]
    rw [strBody.eq_def]
    rfl
  | cons c t ih =>
    intro rest
    rw [List.flatMap_cons, List.append_assoc, strBody_esc, ih]
    rfl

/-- Over a string `s`, `strLit s` opens with `"` and its body parses back. -/
theorem strBody_strLit (s : String) (rest : List Char) :
    strBody (s.toList.flatMap escChar ++ ('"' :: rest)) = some (s.toList, rest) :=
  strBody_lit s.toList rest

theorem string_mk_toList (s : String) : String.mk s.toList = s := rfl

/-- Facts about any digit character needed to steer `jparse` to its numeric
branch. -/
theorem dig_facts {c : Char} (h : isDig c = true) :
    jWs c = false ∧ c ≠ 'n' ∧ c ≠ 't' ∧ c ≠ 'f' ∧ c ≠ '"' ∧ c ≠ '[' ∧ c ≠ '{'
      ∧ c ≠ '-' ∧ c ≠ ']' ∧ c ≠ '}' ∧ c ≠ ',' := by
  refine ⟨?_, ?_, ?_, ?_, ?_, ?_, ?_, ?_, ?_, ?_, ?_⟩
  · by_cases h1 : c = ' '
    · subst h1; exact absurd h (by decide)
    · by_cases h2 : c = '\n'
      · subst h2; exact absurd h (by decide)
      · by_cases h3 : c = '\t'
        · subst h3; exact absurd h (by decide)
        · by_cases h4 : c = '\r'
          · subst h4; exact absurd h (by decide)
          · simp [jWs, h1, h2, h3, h4]
  all_goals (rintro rfl; exact absurd h (by decide))

/-- Every serialized value starts with a character that is not whitespace and
closes no bracket: so `dropWs` leaves serialized output alone and the `]`/`}`
empty checks fall through. -/
theorem jdump_head (j : Json) :
    ∃ c t, jdump j = c :: t ∧ jWs c = false ∧ c ≠ ']' ∧ c ≠ '}' ∧ c ≠ ',' := by
  cases j with
  | null => exact ⟨'n', _, rfl, by decide⟩
  | bool b =>
    cases b with
    | true => exact ⟨'t', _, rfl, by decide⟩
    | false => exact ⟨'f', _, rfl, by decide⟩
  | str s => exact ⟨'"', _, rfl, by decide⟩
  | arr es => exact ⟨'[', _, rfl, by decide⟩
  | obj ms => exact ⟨'{', _, rfl, by decide⟩
  | num i =>
    by_cases hneg : i < 0
    · refine ⟨'-', natDigs i.natAbs, ?_, by decide⟩
      simp [jdump, intChars, hneg]
    · obtain ⟨c0, t0, h0⟩ : ∃ c0 t0, natDigs i.natAbs = c0 :: t0 := by
        cases hnd : natDigs i.natAbs with
        | nil => exact absurd hnd (natDigs_ne_nil _)
        | cons a b => exact ⟨a, b, rfl⟩
      have hdig : isDig c0 = true :=
        natDigs_digits i.natAbs c0 (h0 ▸ List.mem_cons_self _ _)
      obtain ⟨hws, _, _, _, _, _, _, _, hrb, hcb, hcm⟩ := dig_facts hdig
      exact ⟨c0, t0, by simp [jdump, intChars, hneg, h0], hws, hrb, hcb, hcm⟩

theorem dropWs_not_ws {c : Char} (h : jWs c = false) (t : List Char) :
    dropWs (c :: t) = c :: t := by
  simp [dropWs, h]

theorem dropWs_sp (cs : List Char) : dropWs (' ' :: cs) = dropWs cs := by
  simp [dropWs, jWs]

theorem jparse_sp : ∀ (fuel : Nat) (cs : List Char),
    jparse fuel (' ' :: cs) = jparse fuel cs
  | 0, _ => rfl
  | fuel + 1, cs => by
    simp only [jparse, dropWs_sp]

theorem jparseItems_sp : ∀ (fuel : Nat) (cs : List Char),
    jparseItems fuel (' ' :: cs) = jparseItems fuel cs
  | 0, _ => rfl
  | fuel + 1, cs => by
    simp only [jparseItems, jparse_sp]

theorem jparsePairs_sp : ∀ (fuel : Nat) (cs : List Char),
    jparsePairs fuel (' ' :: cs) = jparsePairs fuel cs
  | 0, _ => rfl
  | fuel + 1, cs => by
    simp only [jparsePairs, dropWs_sp]

theorem jparse_digit {c : Char} (hc : isDig c = true) (fuel : Nat) (r : List Char) :
    jparse (fuel + 1) (c :: r)
      = some (.num (digsVal (grabDigs (c :: r)).1), (grabDigs (c :: r)).2) := by
  obtain ⟨hws, hn, ht, hf, hq, hlb, hlc, hm, _, _, _⟩ := dig_facts hc
  simp only [jparse]
  rw [dropWs_not_ws hws]
  simp [hn, ht, hf, hq, hlb, hlc, hm, hc]

theorem jparse_minus (fuel : Nat) (r : List Char) :
    jparse (fuel + 1) ('-' :: r)
      = (match grabDigs r with
         | ([], _) => none
         | (ds, r2) => some (.num (-(digsVal ds : Int)), r2)) := rfl

theorem jparse_int (fuel : Nat) (i : Int) (rest : List Char)
    (hrest : numStop rest = true) :
    jparse (fuel + 1) (intChars i ++ rest) = some (.num i, rest) := by
  obtain ⟨c0, t0, h0⟩ : ∃ c0 t0, natDigs i.natAbs = c0 :: t0 := by
    cases hnd : natDigs i.natAbs with
    | nil => exact absurd hnd (natDigs_ne_nil _)
    | cons a b => exact ⟨a, b, rfl⟩
  have hgrab : grabDigs (c0 :: (t0 ++ rest)) = (c0 :: t0, rest) := by
    have := @grabDigs_run (c0 :: t0) (h0 ▸ natDigs_digits i.natAbs) rest hrest
    simpa using this
  have hval : digsVal (c0 :: t0) = i.natAbs := h0 ▸ digsVal_natDigs i.natAbs
  by_cases hneg : i < 0
  · have harg : intChars i ++ rest = '-' :: (c0 :: (t0 ++ rest)) := by
      simp [intChars, hneg, h0]
    rw [harg, jparse_minus, hgrab]
    show some (Json.num (-(digsVal (c0 :: t0) : Int)), rest) = some (Json.num i, rest)
    have : -(digsVal (c0 :: t0) : Int) = i := by rw [hval]; omega
    rw [this]
  · have hdig : isDig c0 = true := natDigs_digits i.natAbs c0 (h0 ▸ List.mem_cons_self _ _)
    have harg : intChars i ++ rest = c0 :: (t0 ++ rest) := by
      simp [intChars, hneg, h0]
    rw [harg, jparse_digit hdig, hgrab]
    have : (digsVal (c0 :: t0) : Int) = i := by rw [hval]; omega
    rw [this]

theorem jparse_strLit (fuel : Nat) (s : String) (rest : List Char) :
    jparse (fuel + 1) (strLit s ++ rest) = some (.str s, rest) := by
  have harg : strLit s ++ rest = '"' :: (s.toList.flatMap escChar ++ ('"' :: rest)) := by
    simp [strLit]
  rw [harg]
  show (strBody (s.toList.flatMap escChar ++ ('"' :: rest))).map
      (fun p => (Json.str (String.mk p.1), p.2)) = some (.str s, rest)
  rw [strBody_strLit]
  rfl

theorem jparse_arrNE (fuel : Nat) {c : Char} (hws : jWs c = false) (hc : c ≠ ']')
    (t : List Char) :
    jparse (fuel + 1) ('[' :: c :: t)
      = (jparseItems fuel (c :: t)).map (fun p => (Json.arr p.1, p.2)) := by
  show (match dropWs (c :: t) with
        | ']' :: r2 => some (Json.arr [], r2)
        | r1 => (jparseItems fuel r1).map (fun p => (Json.arr p.1, p.2)))
      = (jparseItems fuel (c :: t)).map (fun p => (Json.arr p.1, p.2))
  rw [dropWs_not_ws hws]
  split
  · rename_i r2 heq
    cases heq
    exact absurd rfl hc
  · rfl

theorem jparse_objNE (fuel : Nat) {c : Char} (hws : jWs c = false) (hc : c ≠ '}')
    (t : List Char) :
    jparse (fuel + 1) ('{' :: c :: t)
      = (jparsePairs fuel (c :: t)).map (fun p => (Json.obj p.1, p.2)) := by
  show (match dropWs (c :: t) with
        | '}' :: r2 => some (Json.obj [], r2)
        | r1 => (jparsePairs fuel r1).map (fun p => (Json.obj p.1, p.2)))
      = (jparsePairs fuel (c :: t)).map (fun p => (Json.obj p.1, p.2))
  rw [dropWs_not_ws hws]
  split
  · rename_i r2 heq
    cases heq
    exact absurd rfl hc
  · rfl

theorem jdumpItems_head (e : Json) (es : List Json) :
    ∃ c t, jdumpItems (e :: es) = c :: t ∧ jWs c = false ∧ c ≠ ']' ∧ c ≠ '}' := by
  obtain ⟨c, t, hct, hws, hrb, hcb, _⟩ := jdump_head e
  cases es with
  | nil => exact ⟨c, t, by simp [jdumpItems, hct], hws, hrb, hcb⟩
  | cons x xs =>
    exact ⟨c, t ++ ',' :: ' ' :: jdumpItems (x :: xs),
      by simp [jdumpItems, hct], hws, hrb, hcb⟩

theorem numStop_rb (rest : List Char) : numStop (']' :: rest) = true := rfl

theorem numStop_cb (rest : List Char) : numStop ('}' :: rest) = true := rfl

theorem numStop_comma (rest : List Char) : numStop (',' :: rest) = true := rfl

theorem numStop_nil : numStop [] = true := rfl

theorem jparseItems_step (fuel : Nat) (cs : List Char) :
    jparseItems (fuel + 1) cs
      = (match jparse fuel cs with
         | none => none
         | some (v, r) =>
           match dropWs r with
           | ']' :: r2 => some ([v], r2)
           | ',' :: r2 =>
             match jparseItems fuel r2 with
             | some (vs, r3) => some (v :: vs, r3)
             | none => none
           | _ => none) := rfl

mutual
theorem jparse_rt : ∀ (j : Json) (fuel : Nat) (rest : List Char),
    (jdump j).length < fuel → numStop rest = true →
    jparse fuel (jdump j ++ rest) = some (j, rest)
  | .null, fuel, rest, hf, _ => by
    cases fuel with
    | zero => exact absurd hf (Nat.not_lt_zero _)
    | succ f =>
      rw [show jdump .null ++ rest = 'n' :: 'u' :: 'l' :: 'l' :: rest from rfl]
      rfl
  | .bool true, fuel, rest, hf, _ => by
    cases fuel with
    | zero => exact absurd hf (Nat.not_lt_zero _)
    | succ f =>
      rw [show jdump (.bool true) ++ rest = 't' :: 'r' :: 'u' :: 'e' :: rest from rfl]
      rfl
  | .bool false, fuel, rest, hf, _ => by
    cases fuel with
    | zero => exact absurd hf (Nat.not_lt_zero _)
    | succ f =>
      rw [show jdump (.bool false) ++ rest
        = 'f' :: 'a' :: 'l' :: 's' :: 'e' :: rest from rfl]
      rfl
  | .num i, fuel, rest, hf, hrest => by
    cases fuel with
    | zero => exact absurd hf (Nat.not_lt_zero _)
    | succ f =>
      rw [show jdump (.num i) ++ rest = intChars i ++ rest by simp [jdump]]
      exact jparse_int f i rest hrest
  | .str s, fuel, rest, hf, _ => by
    cases fuel with
    | zero => exact absurd hf (Nat.not_lt_zero _)
    | succ f =>
      rw [show jdump (.str s) ++ rest = strLit s ++ rest by simp [jdump]]
      exact jparse_strLit f s rest
  | .arr [], fuel, rest, hf, _ => by
    cases fuel with
    | zero => exact absurd hf (Nat.not_lt_zero _)
    | succ f =>
      rw [show jdump (.arr []) ++ rest = '[' :: ']' :: rest by simp [jdump, jdumpItems]]
      rfl
  | .arr (e :: es), fuel, rest, hf, _ => by
    cases fuel with
    | zero => exact absurd hf (Nat.not_lt_zero _)
    | succ f =>
      obtain ⟨c, t, hct, hws, hrb, _⟩ := jdumpItems_head e es
      have hlen : (jdumpItems (e :: es)).length + 1 < f := by
        simp only [jdump, List.length_cons, List.length_append,
          List.length_singleton] at hf
        omega
      have harg : jdump (.arr (e :: es)) ++ rest
          = '[' :: (c :: (t ++ (']' :: rest))) := by
        simp [jdump, hct]
      rw [harg, jparse_arrNE f hws hrb,
        show c :: (t ++ (']' :: rest)) = jdumpItems (e :: es) ++ ']' :: rest by
          simp [hct],
        jparseItems_rt e es f rest hlen]
      rfl
  | .obj [], fuel, rest, hf, _ => by
    cases fuel with
    | zero => exact absurd hf (Nat.not_lt_zero _)
    | succ f =>
      rw [show jdump (.obj []) ++ rest = '{' :: '}' :: rest by simp [jdump, jdumpPairs]]
      rfl
  | .obj ((k, v) :: ms), fuel, rest, hf, _ => by
    cases fuel with
    | zero => exact absurd hf (Nat.not_lt_zero _)
    | succ f =>
      have hlen : (jdumpPairs ((k, v) :: ms)).length + 1 < f := by
        simp only [jdump, List.length_cons, List.length_append,
          List.length_singleton] at hf
        omega
      obtain ⟨t, ht⟩ : ∃ t, jdumpPairs ((k, v) :: ms) = '"' :: t := by
        cases ms with
        | nil =>
          exact ⟨k.toList.flatMap escChar ++ '"' :: ':' :: ' ' :: jdump v,
            by simp [jdumpPairs, strLit]⟩
        | cons p ps =>
          obtain ⟨k2, v2⟩ := p
          exact ⟨k.toList.flatMap escChar
              ++ '"' :: ':' :: ' ' :: (jdump v ++ ',' :: ' ' :: jdumpPairs ((k2, v2) :: ps)),
            by simp [jdumpPairs, strLit]⟩
      have harg : jdump (.obj ((k, v) :: ms)) ++ rest
          = '{' :: ('"' :: (t ++ ('}' :: rest))) := by
        simp [jdump, ht]
      rw [harg, jparse_objNE f (by decide) (by decide),
        show '"' :: (t ++ ('}' :: rest)) = jdumpPairs ((k, v) :: ms) ++ '}' :: rest by
          simp [ht],
        jparsePairs_rt k v ms f rest hlen]
      rfl
termination_by j => sizeOf j

theorem jparseItems_rt : ∀ (e : Json) (es : List Json) (fuel : Nat) (rest : List Char),
    (jdumpItems (e :: es)).length + 1 < fuel →
    jparseItems fuel (jdumpItems (e :: es) ++ ']' :: rest) = some (e :: es, rest)
  | e, [], fuel, rest, hf => by
    cases fuel with
    | zero => exact absurd hf (Nat.not_lt_zero _)
    | succ f =>
      have h1 : (jdump e).length < f := by
        simp only [jdumpItems] at hf
        omega
      rw [show jdumpItems [e] = jdump e from by simp [jdumpItems], jparseItems_step,
        jparse_rt e f (']' :: rest) h1 (numStop_rb rest)]
      rfl
  | e, x :: xs, fuel, rest, hf => by
    cases fuel with
    | zero => exact absurd hf (Nat.not_lt_zero _)
    | succ f =>
      have hlens : (jdump e).length + ((jdumpItems (x :: xs)).length + 2) + 1 < f + 1 := by
        simpa [jdumpItems, List.length_append] using hf
      have h1 : (jdump e).length < f := by omega
      have h2 : (jdumpItems (x :: xs)).length + 1 < f := by omega
      rw [show jdumpItems (e :: x :: xs) ++ ']' :: rest
          = jdump e ++ (',' :: ' ' :: (jdumpItems (x :: xs) ++ ']' :: rest)) by
          simp [jdumpItems],
        jparseItems_step,
        jparse_rt e f _ h1 (numStop_comma _)]
      show (match jparseItems f (' ' :: (jdumpItems (x :: xs) ++ ']' :: rest)) with
            | some (vs, r3) => some (e :: vs, r3)
            | none => none) = some (e :: x :: xs, rest)
      rw [jparseItems_sp, jparseItems_rt x xs f rest h2]
termination_by e es => sizeOf e + sizeOf es

theorem jparsePairs_rt : ∀ (k : String) (v : Json) (ms : List (String × Json))
    (fuel : Nat) (rest : List Char),
    (jdumpPairs ((k, v) :: ms)).length + 1 < fuel →
    jparsePairs fuel (jdumpPairs ((k, v) :: ms) ++ '}' :: rest)
      = some ((k, v) :: ms, rest)
  | k, v, [], fuel, rest, hf => by
    cases fuel with
    | zero => exact absurd hf (Nat.not_lt_zero _)
    | succ f =>
      have h1 : (jdump v).length < f := by
        simp only [jdumpPairs, List.length_append, List.length_cons] at hf
        omega
      rw [show jdumpPairs [(k, v)] ++ '}' :: rest
          = '"' :: (k.toList.flatMap escChar
              ++ ('"' :: (':' :: ' ' :: (jdump v ++ '}' :: rest)))) by
          simp [jdumpPairs, strLit]]
      show (match strBody (k.toList.flatMap escChar
              ++ ('"' :: (':' :: ' ' :: (jdump v ++ '}' :: rest)))) with
            | none => none
            | some (kb, r1) =>
              match dropWs r1 with
              | ':' :: r2 =>
                match jparse f r2 with
                | none => none
                | some (v', r3) =>
                  match dropWs r3 with
                  | '}' :: r4 => some ([(String.mk kb, v')], r4)
                  | ',' :: r4 =>
                    match jparsePairs f r4 with
                    | some (ps, r5) => some ((String.mk kb, v') :: ps, r5)
                    | none => none
                  | _ => none
              | _ => none) = some ([(k, v)], rest)
      rw [strBody_strLit]
      show (match jparse f (' ' :: (jdump v ++ '}' :: rest)) with
            | none => none
            | some (v', r3) =>
              match dropWs r3 with
              | '}' :: r4 => some ([(String.mk k.toList, v')], r4)
              | ',' :: r4 =>
                match jparsePairs f r4 with
                | some (ps, r5) => some ((String.mk k.toList, v') :: ps, r5)
                | none => none
              | _ => none) = some ([(k, v)], rest)
      rw [jparse_sp, jparse_rt v f _ h1 (numStop_cb _)]
      rfl
  | k, v, (k2, v2) :: ms, fuel, rest, hf => by
    cases fuel with
    | zero => exact absurd hf (Nat.not_lt_zero _)
    | succ f =>
      have hlens := hf
      simp only [jdumpPairs, List.length_append, List.length_cons] at hlens
      have h1 : (jdump v).length < f := by omega
      have h2 : (jdumpPairs ((k2, v2) :: ms)).length + 1 < f := by omega
      rw [show jdumpPairs ((k, v) :: (k2, v2) :: ms) ++ '}' :: rest
          = '"' :: (k.toList.flatMap escChar
              ++ ('"' :: (':' :: ' ' :: (jdump v
                  ++ (',' :: ' ' :: (jdumpPairs ((k2, v2) :: ms) ++ '}' :: rest)))))) by
          simp [jdumpPairs, strLit]]
      show (match strBody (k.toList.flatMap escChar
              ++ ('"' :: (':' :: ' ' :: (jdump v
                  ++ (',' :: ' ' :: (jdumpPairs ((k2, v2) :: ms) ++ '}' :: rest)))))) with
            | none => none
            | some (kb, r1) =>
              match dropWs r1 with
              | ':' :: r2 =>
                match jparse f r2 with
                | none => none
                | some (v', r3) =>
                  match dropWs r3 with
                  | '}' :: r4 => some ([(String.mk kb, v')], r4)
                  | ',' :: r4 =>
                    match jparsePairs f r4 with
                    | some (ps, r5) => some ((String.mk kb, v') :: ps, r5)
                    | none => none
                  | _ => none
              | _ => none) = some ((k, v) :: (k2, v2) :: ms, rest)
      rw [strBody_strLit]
      show (match jparse f (' ' :: (jdump v
              ++ (',' :: ' ' :: (jdumpPairs ((k2, v2) :: ms) ++ '}' :: rest)))) with
            | none => none
            | some (v', r3) =>
              match dropWs r3 with
              | '}' :: r4 => some ([(String.mk k.toList, v')], r4)
              | ',' :: r4 =>
                match jparsePairs f r4 with
                | some (ps, r5) => some ((String.mk k.toList, v') :: ps, r5)
                | none => none
              | _ => none) = some ((k, v) :: (k2, v2) :: ms, rest)
      rw [jparse_sp, jparse_rt v f _ h1 (numStop_comma _)]
      show (match jparsePairs f (' ' :: (jdumpPairs ((k2, v2) :: ms) ++ '}' :: rest)) with
            | some (ps, r5) => some ((String.mk k.toList, v) :: ps, r5)
            | none => none) = some ((k, v) :: (k2, v2) :: ms, rest)
      rw [jparsePairs_sp, jparsePairs_rt k2 v2 ms f rest h2]
      rfl
termination_by _ v ms => sizeOf v + sizeOf ms
end

/-- `json.loads` inverts `json.dumps` on every embedded JSON value. -/
theorem loads_dumps (j : Json) : loads (dumps j) = some j := by
  show (match jparse ((jdump j).length + 1) (jdump j) with
        | some (j2, r) => if dropWs r = [] then some j2 else none
        | none => none) = some j
  have h := jparse_rt j ((jdump j).length + 1) [] (by omega) numStop_nil
  rw [List.append_nil] at h
  rw [h]
  rfl

theorem jwfItems_cons_iff (e : Json) (es : List Json) :
    jwfItems (e :: es) = true ↔ (jwf e = true ∧ jwfItems es = true) := by
  simp [jwfItems, Bool.and_eq_true]

theorem jwfPairs_cons_iff (k : String) (v : Json) (ms : List (String × Json)) :
    jwfPairs ((k, v) :: ms) = true
      ↔ (asciiStr k = true ∧ jwf v = true ∧ jwfPairs ms = true) := by
  simp [jwfPairs, Bool.and_eq_true, and_assoc]

theorem asciiL_append {l1 l2 : List Char} (h1 : asciiL l1) (h2 : asciiL l2) :
    asciiL (l1 ++ l2) :=
  List.forall_mem_append.mpr ⟨h1, h2⟩

theorem asciiL_cons {c : Char} (hc : c.toNat < 128) {l : List Char} (hl : asciiL l) :
    asciiL (c :: l) :=
  List.forall_mem_cons.mpr ⟨hc, hl⟩

theorem natDigs_ascii (n : Nat) : asciiL (natDigs n) := by
  intro c hc
  have hd := natDigs_digits n c hc
  have : 48 ≤ c.toNat ∧ c.toNat ≤ 57 := by
    simp only [isDig, Bool.and_eq_true, decide_eq_true_eq] at hd
    exact ⟨hd.1, hd.2⟩
  omega

theorem intChars_ascii (i : Int) : asciiL (intChars i) := by
  by_cases hneg : i < 0
  · rw [intChars, if_pos hneg]
    exact asciiL_cons (by decide) (natDigs_ascii _)
  · rw [intChars, if_neg hneg]
    exact natDigs_ascii _

theorem strLit_ascii {s : String} (hs : asciiStr s = true) : asciiL (strLit s) := by
  rw [strLit]
  refine asciiL_cons (by decide) (asciiL_append ?_ (by decide))
  intro c hc
  obtain ⟨c0, hc0, hce⟩ := List.mem_flatMap.mp hc
  have h0 : c0.toNat < 128 := by
    simp only [asciiStr, List.all_eq_true, decide_eq_true_eq] at hs
    exact hs c0 hc0
  by_cases hq : c0 = '"'
  · subst hq
    rw [escChar, if_pos rfl] at hce
    revert hce
    exact fun hce => by
      rcases hce with _ | ⟨_, _ | ⟨_, h⟩⟩
      · decide
      · decide
      · exact absurd h (List.not_mem_nil c)
  · by_cases hb : c0 = '\\'
    · subst hb
      rw [escChar, if_neg (by decide), if_pos rfl] at hce
      revert hce
      exact fun hce => by
        rcases hce with _ | ⟨_, _ | ⟨_, h⟩⟩
        · decide
        · decide
        · exact absurd h (List.not_mem_nil c)
    · rw [escChar, if_neg hq, if_neg hb] at hce
      rcases hce with _ | ⟨_, h⟩
      · exact h0
      · exact absurd h (List.not_mem_nil c)

mutual
theorem jdump_ascii : ∀ (j : Json), jwf j = true → asciiL (jdump j)
  | .null, _ => by
    rw [show jdump .null = "null".toList from rfl]
    decide
  | .bool true, _ => by
    rw [show jdump (.bool true) = "true".toList from rfl]
    decide
  | .bool false, _ => by
    rw [show jdump (.bool false) = "false".toList from rfl]
    decide
  | .num i, _ => by
    rw [show jdump (.num i) = intChars i from by simp [jdump]]
    exact intChars_ascii i
  | .str s, hwf => by
    rw [show jdump (.str s) = strLit s from by simp [jdump]]
    exact strLit_ascii (by simpa [jwf] using hwf)
  | .arr es, hwf => by
    rw [show jdump (.arr es) = '[' :: (jdumpItems es ++ [']']) from by simp [jdump]]
    exact asciiL_cons (by decide)
      (asciiL_append (jdumpItems_ascii es (by simpa [jwf] using hwf)) (by decide))
  | .obj ms, hwf => by
    rw [show jdump (.obj ms) = '{' :: (jdumpPairs ms ++ ['}']) from by simp [jdump]]
    exact asciiL_cons (by decide)
      (asciiL_append (jdumpPairs_ascii ms (by simpa [jwf] using hwf)) (by decide))
termination_by j => sizeOf j

theorem jdumpItems_ascii : ∀ (es : List Json), jwfItems es = true →
    asciiL (jdumpItems es)
  | [], _ => by
    rw [show jdumpItems [] = [] from by simp [jdumpItems]]
    decide
  | [e], hwf => by
    rw [show jdumpItems [e] = jdump e from by simp [jdumpItems]]
    exact jdump_ascii e ((jwfItems_cons_iff e []).mp hwf).1
  | e :: x :: xs, hwf => by
    obtain ⟨h1, h2⟩ := (jwfItems_cons_iff e (x :: xs)).mp hwf
    rw [show jdumpItems (e :: x :: xs) = jdump e ++ ',' :: ' ' :: jdumpItems (x :: xs)
      from by simp [jdumpItems]]
    exact asciiL_append (jdump_ascii e h1)
      (asciiL_cons (by decide) (asciiL_cons (by decide) (jdumpItems_ascii (x :: xs) h2)))
termination_by es => sizeOf es

theorem jdumpPairs_ascii : ∀ (ms : List (String × Json)), jwfPairs ms = true →
    asciiL (jdumpPairs ms)
  | [], _ => by
    rw [show jdumpPairs [] = [] from by simp [jdumpPairs]]
    decide
  | [(k, v)], hwf => by
    obtain ⟨h1, h2, _⟩ := (jwfPairs_cons_iff k v []).mp hwf
    rw [show jdumpPairs [(k, v)] = strLit k ++ ':' :: ' ' :: jdump v
      from by simp [jdumpPairs]]
    exact asciiL_append (strLit_ascii h1)
      (asciiL_cons (by decide) (asciiL_cons (by decide) (jdump_ascii v h2)))
  | (k, v) :: (k2, v2) :: ms, hwf => by
    obtain ⟨h1, h2, h3⟩ := (jwfPairs_cons_iff k v ((k2, v2) :: ms)).mp hwf
    rw [show jdumpPairs ((k, v) :: (k2, v2) :: ms)
        = strLit k ++ ':' :: ' ' :: (jdump v ++ ',' :: ' ' :: jdumpPairs ((k2, v2) :: ms))
      from by simp [jdumpPairs]]
    exact asciiL_append (strLit_ascii h1)
      (asciiL_cons (by decide) (asciiL_cons (by decide)
        (asciiL_append (jdump_ascii v h2)
          (asciiL_cons (by decide) (asciiL_cons (by decide)
            (jdumpPairs_ascii ((k2, v2) :: ms) h3))))))
termination_by ms => sizeOf ms
end

/-- Byte encoding of one character. -/
theorem charByte_inv {c : Char} (h : c.toNat < 128) :
    Char.ofNat ((⟨c.toNat % 256, Nat.mod_lt _ (by norm_num)⟩ : Byte).val) = c := by
  show Char.ofNat (c.toNat % 256) = c
  rw [Nat.mod_eq_of_lt (by omega)]
  exact Char.ofNat_toNat c

/-- On ASCII text, decoding the encoded bytes gives the text back. -/
theorem bytesStr_strBytes {s : String} (h : asciiL s.toList) :
    bytesStr (strBytes s) = s := by
  have hchars : bytesChars (strBytes s) = s.toList := by
    rw [bytesChars, strBytes, List.map_map]
    calc List.map ((fun b : Byte => Char.ofNat b.val)
            ∘ fun c => (⟨c.toNat % 256, Nat.mod_lt _ (by norm_num)⟩ : Byte)) s.toList
        = List.map id s.toList := by
          refine List.map_congr_left ?_
          intro c hc
          exact charByte_inv (h c hc)
      _ = s.toList := List.map_id _
  rw [bytesStr, hchars]
  exact string_mk_toList s

theorem asciiStr_iff (s : String) : asciiStr s = true ↔ asciiL s.toList := by
  simp [asciiStr, List.all_eq_true]

theorem b64Val_b64Char : ∀ n, n < 64 → b64Val (b64Char n) = some n := by decide

theorem b64Char_ne_pad : ∀ n, n < 64 → b64Char n ≠ '=' := by decide

/-- Decoding inverts encoding on every byte list. -/
theorem b64DecodeL_b64EncodeL : ∀ bs : List Byte, b64DecodeL (b64EncodeL bs) = some bs
  | [] => rfl
  | [b1] => by
    have h1 := b1.isLt
    rw [show b64EncodeL [b1]
        = [b64Char (b1.val / 4), b64Char (b1.val % 4 * 16), '=', '='] from rfl]
    rw [show b64DecodeL [b64Char (b1.val / 4), b64Char (b1.val % 4 * 16), '=', '=']
        = b64Quad (b64Char (b1.val / 4)) (b64Char (b1.val % 4 * 16)) '=' '=' []
            (b64DecodeL []) from by rw [b64DecodeL.eq_def]]
    rw [b64Quad, b64Val_b64Char _ (show b1.val / 4 < 64 by omega),
      b64Val_b64Char _ (show b1.val % 4 * 16 < 64 by omega)]
    simp only [if_pos rfl, and_self, ite_true]
    have : mkByte (b1.val / 4 * 4 + b1.val % 4 * 16 / 16) = b1 := by
      apply Fin.ext
      show (b1.val / 4 * 4 + b1.val % 4 * 16 / 16) % 256 = b1.val
      omega
    rw [this]
  | [b1, b2] => by
    have h1 := b1.isLt
    have h2 := b2.isLt
    have hne := b64Char_ne_pad (b2.val % 16 * 4) (by omega)
    rw [show b64EncodeL [b1, b2]
        = [b64Char (b1.val / 4), b64Char (b1.val % 4 * 16 + b2.val / 16),
           b64Char (b2.val % 16 * 4), '='] from rfl]
    rw [show b64DecodeL [b64Char (b1.val / 4), b64Char (b1.val % 4 * 16 + b2.val / 16),
           b64Char (b2.val % 16 * 4), '=']
        = b64Quad (b64Char (b1.val / 4)) (b64Char (b1.val % 4 * 16 + b2.val / 16))
            (b64Char (b2.val % 16 * 4)) '=' [] (b64DecodeL []) from by
          rw [b64DecodeL.eq_def]]
    have e1 : mkByte (b1.val / 4 * 4 + (b1.val % 4 * 16 + b2.val / 16) / 16) = b1 := by
      apply Fin.ext
      show (b1.val / 4 * 4 + (b1.val % 4 * 16 + b2.val / 16) / 16) % 256 = b1.val
      omega
    have e2 : mkByte ((b1.val % 4 * 16 + b2.val / 16) % 16 * 16 + b2.val % 16 * 4 / 4)
        = b2 := by
      apply Fin.ext
      show ((b1.val % 4 * 16 + b2.val / 16) % 16 * 16 + b2.val % 16 * 4 / 4) % 256
        = b2.val
      omega
    simp only [b64Quad, b64Val_b64Char _ (show b1.val / 4 < 64 by omega),
      b64Val_b64Char _ (show b1.val % 4 * 16 + b2.val / 16 < 64 by omega),
      b64Val_b64Char _ (show b2.val % 16 * 4 < 64 by omega), if_neg hne]
    simp [e1, e2]
    all_goals (apply Fin.ext; simp only [mkByte, Fin.val_mk]; omega)
  | b1 :: b2 :: b3 :: rest => by
    have h1 := b1.isLt
    have h2 := b2.isLt
    have h3 := b3.isLt
    have hne3 := b64Char_ne_pad (b2.val % 16 * 4 + b3.val / 64) (by omega)
    have hne4 := b64Char_ne_pad (b3.val % 64) (by omega)
    have ih := b64DecodeL_b64EncodeL rest
    rw [show b64EncodeL (b1 :: b2 :: b3 :: rest)
        = b64Char (b1.val / 4) :: b64Char (b1.val % 4 * 16 + b2.val / 16)
            :: b64Char (b2.val % 16 * 4 + b3.val / 64) :: b64Char (b3.val % 64)
            :: b64EncodeL rest from by rw [b64EncodeL.eq_def]]
    rw [show b64DecodeL (b64Char (b1.val / 4) :: b64Char (b1.val % 4 * 16 + b2.val / 16)
            :: b64Char (b2.val % 16 * 4 + b3.val / 64) :: b64Char (b3.val % 64)
            :: b64EncodeL rest)
        = b64Quad (b64Char (b1.val / 4)) (b64Char (b1.val % 4 * 16 + b2.val / 16))
            (b64Char (b2.val % 16 * 4 + b3.val / 64)) (b64Char (b3.val % 64))
            (b64EncodeL rest)
            (b64DecodeL (b64EncodeL rest)) from by
          rw [b64DecodeL.eq_def]]
    have e1 : mkByte (b1.val / 4 * 4 + (b1.val % 4 * 16 + b2.val / 16) / 16) = b1 := by
      apply Fin.ext
      show (b1.val / 4 * 4 + (b1.val % 4 * 16 + b2.val / 16) / 16) % 256 = b1.val
      omega
    have e2 : mkByte ((b1.val % 4 * 16 + b2.val / 16) % 16 * 16
        + (b2.val % 16 * 4 + b3.val / 64) / 4) = b2 := by
      apply Fin.ext
      show ((b1.val % 4 * 16 + b2.val / 16) % 16 * 16
        + (b2.val % 16 * 4 + b3.val / 64) / 4) % 256 = b2.val
      omega
    have e3 : mkByte ((b2.val % 16 * 4 + b3.val / 64) % 4 * 64 + b3.val % 64) = b3 := by
      apply Fin.ext
      show ((b2.val % 16 * 4 + b3.val / 64) % 4 * 64 + b3.val % 64) % 256 = b3.val
      omega
    simp only [ih, b64Quad, b64Val_b64Char _ (show b1.val / 4 < 64 by omega),
      b64Val_b64Char _ (show b1.val % 4 * 16 + b2.val / 16 < 64 by omega),
      b64Val_b64Char _ (show b2.val % 16 * 4 + b3.val / 64 < 64 by omega),
      b64Val_b64Char _ (show b3.val % 64 < 64 by omega),
      if_neg hne3, if_neg hne4]
    simp [e1, e2, e3]

/-- String-level base64url round trip. -/
theorem b64decode_b64encode (bs : List Byte) : b64decode (b64encode bs) = some bs :=
  b64DecodeL_b64EncodeL bs

theorem packQ_length (t : Nat) : (packQ t).length = 8 := rfl

/-- `packQ` really is the big-endian encoding of `t mod 2^64`. -/
theorem beNat_packQ (t : Nat) : beNat (packQ t) = t % 2 ^ 64 := by
  simp only [beNat, packQ, mkByte, List.foldl_cons, List.foldl_nil, Fin.val_mk]
  omega

theorem crypto_verify_sign (vk : String) (data : List Byte) :
    crypto_verify vk data (crypto_sign_bytes vk data) = true := by
  simp [crypto_verify]

theorem strBytes_length (s : String) : (strBytes s).length = s.length := by
  rw [strBytes, List.length_map]
  rfl

theorem replicate_sep_inj : ∀ (m : Nat) {n : Nat} {xs ys : List Byte},
    List.replicate m (1 : Byte) ++ (0 : Byte) :: xs
      = List.replicate n (1 : Byte) ++ (0 : Byte) :: ys →
    m = n ∧ xs = ys := by
  intro m
  induction m with
  | zero =>
    intro n xs ys h
    cases n with
    | zero =>
      simp only [List.replicate, List.nil_append, List.cons.injEq] at h
      exact ⟨rfl, h.2⟩
    | succ k =>
      simp only [List.replicate, List.nil_append, List.cons_append,
        List.cons.injEq] at h
      exact absurd h.1 (by decide)
  | succ m ih =>
    intro n xs ys h
    cases n with
    | zero =>
      simp only [List.replicate, List.nil_append, List.cons_append,
        List.cons.injEq] at h
      exact absurd h.1 (by decide)
    | succ k =>
      simp only [List.replicate, List.cons_append, List.cons.injEq] at h
      obtain ⟨hm, hxs⟩ := ih h.2
      exact ⟨by omega, hxs⟩

/-- With ASCII verkeys, equal idealised signatures come from the same key
and the same signed bytes. -/
theorem crypto_sign_bytes_inj {vk vk2 : String}
    (hvk : asciiStr vk = true) (hvk2 : asciiStr vk2 = true) {d d2 : List Byte}
    (h : crypto_sign_bytes vk d = crypto_sign_bytes vk2 d2) : vk = vk2 ∧ d = d2 := by
  obtain ⟨hm, htail⟩ := replicate_sep_inj vk.length h
  have hlen : (strBytes vk).length = (strBytes vk2).length := by
    rw [strBytes_length, strBytes_length, hm]
  obtain ⟨hpre, hsuf⟩ := List.append_inj htail hlen
  refine ⟨?_, hsuf⟩
  have h1 := bytesStr_strBytes ((asciiStr_iff vk).mp hvk)
  have h2 := bytesStr_strBytes ((asciiStr_iff vk2).mp hvk2)
  rw [← h1, ← h2, hpre]

theorem dumps_ascii {j : Json} (h : jwf j = true) : asciiL (dumps j).toList :=
  jdump_ascii j h

theorem sign_sig_data (now : Nat) (p : Json) (vk : String) :
    b64decode (sign_agent_message_field now p vk).sig_data
      = some (packQ now ++ strBytes (dumps p)) :=
  b64decode_b64encode _

theorem sign_signature (now : Nat) (p : Json) (vk : String) :
    b64decode (sign_agent_message_field now p vk).signature
      = some (crypto_sign_bytes vk (packQ now ++ strBytes (dumps p))) :=
  b64decode_b64encode _

/-- Reduction of `unpack_and_verify_signed_agent_message_field` once both
base64 fields decode and the decoded `sig_data` holds at least the 8
timestamp bytes. -/
theorem verify_decodes {sf : SignedField} {sd sig : List Byte}
    (hsd : b64decode sf.sig_data = some sd)
    (hsig : b64decode sf.signature = some sig)
    (hlen : 8 ≤ sd.length) :
    unpack_and_verify_signed_agent_message_field sf
      = match loads (bytesStr (sd.drop 8)) with
        | none => .error .badJson
        | some payload => .ok (payload, crypto_verify sf.signer sd sig) := by
  simp only [unpack_and_verify_signed_agent_message_field, hsig, hsd]
  rw [if_neg (by omega : ¬ sd.length < 8)]

/-- The raw signed bytes produced by `sign_agent_message_field`. -/
theorem sign_raw_drop (now : Nat) (p : Json) :
    (packQ now ++ strBytes (dumps p)).drop 8 = strBytes (dumps p) := by
  rw [← packQ_length now, List.drop_left]

theorem sign_raw_len (now : Nat) (p : Json) :
    8 ≤ (packQ now ++ strBytes (dumps p)).length := by
  rw [List.length_append, packQ_length]
  omega

/-- Verifying an untampered signed field with the matching key recovers the
payload with `verified = true`. -/
theorem verify_sign_ok {p : Json} (hp : jwf p = true) (now : Nat) (vk : String) :
    unpack_and_verify_signed_agent_message_field (sign_agent_message_field now p vk)
      = .ok (p, true) := by
  rw [verify_decodes (sign_sig_data now p vk) (sign_signature now p vk)
    (sign_raw_len now p)]
  rw [sign_raw_drop, bytesStr_strBytes (dumps_ascii hp), loads_dumps]
  show Except.ok (p, crypto_verify vk (packQ now ++ strBytes (dumps p))
    (crypto_sign_bytes vk (packQ now ++ strBytes (dumps p)))) = .ok (p, true)
  rw [crypto_verify_sign]

/-- Verifying with a different verifier key returns `verified = false` as a
value. -/
theorem verify_sign_wrong_key {p : Json} (hp : jwf p = true) (now : Nat)
    {vk vk2 : String} (hvk : asciiStr vk = true) (hvk2 : asciiStr vk2 = true)
    (hne : vk2 ≠ vk) :
    unpack_and_verify_signed_agent_message_field
      { sign_agent_message_field now p vk with signer := vk2 } = .ok (p, false) := by
  have hsd : b64decode ({ sign_agent_message_field now p vk with
      signer := vk2 } : SignedField).sig_data = some (packQ now ++ strBytes (dumps p)) :=
    sign_sig_data now p vk
  have hsig : b64decode ({ sign_agent_message_field now p vk with
      signer := vk2 } : SignedField).signature
      = some (crypto_sign_bytes vk (packQ now ++ strBytes (dumps p))) :=
    sign_signature now p vk
  rw [verify_decodes hsd hsig (sign_raw_len now p)]
  rw [sign_raw_drop, bytesStr_strBytes (dumps_ascii hp), loads_dumps]
  have hv : crypto_verify vk2 (packQ now ++ strBytes (dumps p))
      (crypto_sign_bytes vk (packQ now ++ strBytes (dumps p))) = false := by
    simp only [crypto_verify, decide_eq_false_iff_not]
    intro heq
    exact hne ((crypto_sign_bytes_inj hvk hvk2 heq).1).symm
  show Except.ok (p, crypto_verify vk2 (packQ now ++ strBytes (dumps p))
    (crypto_sign_bytes vk (packQ now ++ strBytes (dumps p)))) = .ok (p, false)
  rw [hv]

/-- Verifying after the signature was replaced by any other (decodable)
signature returns `verified = false` as a value. -/
theorem verify_sign_tampered_sig {p : Json} (hp : jwf p = true) (now : Nat)
    (vk : String) {sigB : List Byte}
    (hne : sigB ≠ crypto_sign_bytes vk (packQ now ++ strBytes (dumps p))) :
    unpack_and_verify_signed_agent_message_field
      { sign_agent_message_field now p vk with signature := b64encode sigB }
      = .ok (p, false) := by
  have hsd : b64decode ({ sign_agent_message_field now p vk with
      signature := b64encode sigB } : SignedField).sig_data
      = some (packQ now ++ strBytes (dumps p)) :=
    sign_sig_data now p vk
  have hsig : b64decode ({ sign_agent_message_field now p vk with
      signature := b64encode sigB } : SignedField).signature = some sigB :=
    b64decode_b64encode sigB
  rw [verify_decodes hsd hsig (sign_raw_len now p)]
  rw [sign_raw_drop, bytesStr_strBytes (dumps_ascii hp), loads_dumps]
  have hv : crypto_verify vk (packQ now ++ strBytes (dumps p)) sigB = false := by
    simp only [crypto_verify, decide_eq_false_iff_not]
    exact hne
  show Except.ok (p, crypto_verify vk (packQ now ++ strBytes (dumps p)) sigB)
    = .ok (p, false)
  rw [hv]

/-- Replacing `sig_data` can make verification report `true` only if the
replacement still decodes to the exact originally signed bytes, and then the
returned payload is the original one. -/
theorem verify_sign_tampered_data {p : Json} (hp : jwf p = true) (now : Nat)
    {vk : String} (hvk : asciiStr vk = true) (t : String) (q : Json)
    (hok : unpack_and_verify_signed_agent_message_field
      { sign_agent_message_field now p vk with sig_data := t } = .ok (q, true)) :
    b64decode t = some (packQ now ++ strBytes (dumps p)) ∧ q = p := by
  have hsig : b64decode ({ sign_agent_message_field now p vk with
      sig_data := t } : SignedField).signature
      = some (crypto_sign_bytes vk (packQ now ++ strBytes (dumps p))) :=
    sign_signature now p vk
  cases ht : b64decode t with
  | none =>
    rw [show unpack_and_verify_signed_agent_message_field
        { sign_agent_message_field now p vk with sig_data := t }
        = .error .badBase64 from by
      simp only [unpack_and_verify_signed_agent_message_field, hsig, ht]] at hok
    exact absurd hok (by simp)
  | some sd =>
    by_cases hlen : sd.length < 8
    · rw [show unpack_and_verify_signed_agent_message_field
          { sign_agent_message_field now p vk with sig_data := t }
          = .error .shortData from by
        simp only [unpack_and_verify_signed_agent_message_field, hsig, ht]
        rw [if_pos hlen]] at hok
      exact absurd hok (by simp)
    · rw [verify_decodes ht hsig (by omega)] at hok
      cases hload : loads (bytesStr (sd.drop 8)) with
      | none =>
        rw [hload] at hok
        exact absurd hok (by simp)
      | some q2 =>
        rw [hload] at hok
        have hq : q2 = q ∧ crypto_verify vk sd
            (crypto_sign_bytes vk (packQ now ++ strBytes (dumps p))) = true := by
          have := hok
          simp only [Except.ok.injEq, Prod.mk.injEq] at this
          exact ⟨this.1, this.2⟩
        have hsd_eq : sd = packQ now ++ strBytes (dumps p) := by
          have := hq.2
          simp only [crypto_verify, decide_eq_true_eq] at this
          exact ((crypto_sign_bytes_inj hvk hvk this).2).symm
        subst hsd_eq
        refine ⟨rfl, ?_⟩
        rw [sign_raw_drop, bytesStr_strBytes (dumps_ascii hp), loads_dumps] at hload
        have : p = q2 := by
          simpa using hload
        rw [← hq.1, ← this]

/-! ## Claims -/

/-- C1 (corrected): verifying the field signed over payload `p` with the
matching verify key returns exactly `(p, verified = true)`; substituting a
different verifier key, or replacing the signature with any other decodable
signature, returns `verified = false` as a value; and a replacement
`sig_data` can ever verify as `true` only when it still decodes to the exact
originally signed bytes, in which case the payload returned is the original
`p` — so no tampering yields a payload treated as trusted.  (The claim's
further assertion that tampering `sig_data` *never raises* is refuted by
`claim_C1_counterexample`: a tampered `sig_data` whose embedded bytes are
not JSON raises the malformed-field error that the spec's §4.1 verify
contract itself distinguishes from failed verification.) -/
theorem claim_C1 (now : Nat) (p : Json) (vk : String)
    (hp : jwf p = true) (hvk : asciiStr vk = true) :
    unpack_and_verify_signed_agent_message_field (sign_agent_message_field now p vk)
        = .ok (p, true)
    ∧ (∀ vk2, asciiStr vk2 = true → vk2 ≠ vk →
        unpack_and_verify_signed_agent_message_field
          { sign_agent_message_field now p vk with signer := vk2 } = .ok (p, false))
    ∧ (∀ sigB, sigB ≠ crypto_sign_bytes vk (packQ now ++ strBytes (dumps p)) →
        unpack_and_verify_signed_agent_message_field
          { sign_agent_message_field now p vk with signature := b64encode sigB }
          = .ok (p, false))
    ∧ (∀ t q, unpack_and_verify_signed_agent_message_field
          { sign_agent_message_field now p vk with sig_data := t } = .ok (q, true) →
        b64decode t = some (packQ now ++ strBytes (dumps p)) ∧ q = p) :=
  ⟨verify_sign_ok hp now vk,
   fun _ hvk2 hne => verify_sign_wrong_key hp now hvk hvk2 hne,
   fun _ hne => verify_sign_tampered_sig hp now vk hne,
   fun t q hok => verify_sign_tampered_data hp now hvk t q hok⟩

/-- C1, the counterexample to the claim as stated: tampering `sig_data` (here
to the base64url of 8 timestamp bytes followed by `x`, which is not JSON)
makes `unpack_and_verify_signed_agent_message_field` raise the JSON
malformed-field error instead of returning `verified = false`. -/
theorem claim_C1_counterexample :
    unpack_and_verify_signed_agent_message_field
      { sign_agent_message_field 0 (Json.str "a") "vkey" with
        sig_data := b64encode (packQ 0 ++ strBytes "x") } = .error .badJson := rfl

/-- C1, witnessed at a concrete payload, keypair, wrong key, and forged
signature. -/
theorem claim_C1_witness :
    unpack_and_verify_signed_agent_message_field
        (sign_agent_message_field 7 (Json.obj [("DID", Json.str "d")]) "vkA")
        = .ok (Json.obj [("DID", Json.str "d")], true)
    ∧ unpack_and_verify_signed_agent_message_field
        { sign_agent_message_field 7 (Json.obj [("DID", Json.str "d")]) "vkA" with
          signer := "vkB" } = .ok (Json.obj [("DID", Json.str "d")], false)
    ∧ unpack_and_verify_signed_agent_message_field
        { sign_agent_message_field 7 (Json.obj [("DID", Json.str "d")]) "vkA" with
          signature := b64encode [(0 : Byte)] }
        = .ok (Json.obj [("DID", Json.str "d")], false) := by
  have h := claim_C1 7 (Json.obj [("DID", Json.str "d")]) "vkA" (by decide) (by decide)
  exact ⟨h.1, h.2.1 "vkB" (by decide) (by decide), h.2.2.1 [(0 : Byte)] (by decide)⟩

/-- C2 (confirmed): `sign_agent_message_field` builds `sig_data` as the
base64url encoding of the 8-byte big-endian current-unix-time prefix
(`packQ now`, whose big-endian value is `now mod 2^64`) concatenated with
the encoded bytes of the JSON-serialized payload, invokes the Crypto
Provider's sign over those raw pre-encoded bytes — the decoded `signature`
is the signature of the raw bytes, not of the base64 text — and base64url
encodes the resulting signature; `signer` is the verkey and `@type` the
signature-algorithm URI. -/
theorem claim_C2 (now : Nat) (p : Json) (vk : String) :
    (sign_agent_message_field now p vk).sig_data
        = b64encode (packQ now ++ strBytes (dumps p))
    ∧ b64decode (sign_agent_message_field now p vk).sig_data
        = some (packQ now ++ strBytes (dumps p))
    ∧ (packQ now).length = 8
    ∧ beNat (packQ now) = now % 2 ^ 64
    ∧ (sign_agent_message_field now p vk).signature
        = b64encode (crypto_sign_bytes vk (packQ now ++ strBytes (dumps p)))
    ∧ b64decode (sign_agent_message_field now p vk).signature
        = some (crypto_sign_bytes vk (packQ now ++ strBytes (dumps p)))
    ∧ (sign_agent_message_field now p vk).signer = vk
    ∧ (sign_agent_message_field now p vk).type = sigFieldType :=
  ⟨rfl, sign_sig_data now p vk, packQ_length now, beNat_packQ now, rfl,
   sign_signature now p vk, rfl, rfl⟩

/-- C3 (confirmed): on any signed field whose `sig_data` and `signature`
base64url-decode and whose decoded `sig_data` carries the 8 timestamp
bytes, `unpack_and_verify_signed_agent_message_field` invokes the Crypto
Provider's verify over `(signer, sig_data bytes, signature bytes)`, splits
off and discards the first 8 bytes, parses the rest as JSON, and returns
`(payload, verified)` — `verified = false` is an ordinary return value;
while a JSON parse failure of the embedded payload is the distinct
malformed-field error `badJson`, not a `verified = false` result. -/
theorem claim_C3 :
    (∀ (sf : SignedField) (sd sig : List Byte) (payload : Json),
      b64decode sf.sig_data = some sd → b64decode sf.signature = some sig →
      8 ≤ sd.length → loads (bytesStr (sd.drop 8)) = some payload →
      unpack_and_verify_signed_agent_message_field sf
        = .ok (payload, crypto_verify sf.signer sd sig))
    ∧ (∀ (sf : SignedField) (sd sig : List Byte),
      b64decode sf.sig_data = some sd → b64decode sf.signature = some sig →
      8 ≤ sd.length → loads (bytesStr (sd.drop 8)) = none →
      unpack_and_verify_signed_agent_message_field sf = .error .badJson) := by
  constructor
  · intro sf sd sig payload hsd hsig hlen hload
    rw [verify_decodes hsd hsig hlen, hload]
  · intro sf sd sig hsd hsig hlen hload
    rw [verify_decodes hsd hsig hlen, hload]

/-- C3, witnessed on a concrete well-formed signed field and on a concrete
field whose decoded `sig_data` payload is not JSON. -/
theorem claim_C3_witness :
    unpack_and_verify_signed_agent_message_field
        (sign_agent_message_field 5 (Json.obj [("a", Json.num 1)]) "k1")
        = .ok (Json.obj [("a", Json.num 1)],
            crypto_verify "k1" (packQ 5 ++ strBytes (dumps (Json.obj [("a", Json.num 1)])))
              (crypto_sign_bytes "k1"
                (packQ 5 ++ strBytes (dumps (Json.obj [("a", Json.num 1)])))))
    ∧ unpack_and_verify_signed_agent_message_field
        { sign_agent_message_field 5 (Json.obj [("a", Json.num 1)]) "k1" with
          sig_data := b64encode (packQ 5 ++ strBytes "x") } = .error .badJson := by
  constructor
  · exact (claim_C3).1 (sign_agent_message_field 5 (Json.obj [("a", Json.num 1)]) "k1")
      (packQ 5 ++ strBytes (dumps (Json.obj [("a", Json.num 1)])))
      (crypto_sign_bytes "k1" (packQ 5 ++ strBytes (dumps (Json.obj [("a", Json.num 1)]))))
      (Json.obj [("a", Json.num 1)]) (by rfl) (by rfl) (by decide) (by rfl)
  · exact (claim_C3).2
      { sign_agent_message_field 5 (Json.obj [("a", Json.num 1)]) "k1" with
        sig_data := b64encode (packQ 5 ++ strBytes "x") }
      (packQ 5 ++ strBytes "x")
      (crypto_sign_bytes "k1" (packQ 5 ++ strBytes (dumps (Json.obj [("a", Json.num 1)]))))
      (by rfl) (by rfl) (by decide) (by rfl)

theorem deserialize_context : ∀ {s : String} {m : Msg},
    deserialize s = some m → m.context = none := by
  intro s m h
  simp only [deserialize] at h
  split at h
  · cases h
    rfl
  · exact absurd h (by simp)

/-- C4 (confirmed): `unpack_wire_msg` first attempts a plaintext parse — a
wire text that parses to a message containing `@type` is returned as is,
with empty context, for every environment (so the decryption collaborator
is not consulted); otherwise the result is exactly that of the
authenticated-decryption path; when that also fails the result is the value
`none` (python returns `None`, nothing is thrown across the dispatch
boundary), and `handle_incoming` maps it to `Outcome.dropped` — the
message is dropped with no retry while the loop moves on (claim C6). -/
theorem claim_C4 (env : AgentEnv) (route : Msg → Except String (Option Msg))
    (wire : String) :
    (∀ m, deserialize wire = some m → msgHasKey m "@type" = true →
      unpack_wire_msg env wire = some m ∧ m.context = none)
    ∧ (∀ m, deserialize wire = some m → msgHasKey m "@type" = false →
      unpack_wire_msg env wire = unpack_agent_message env wire)
    ∧ (deserialize wire = none →
      unpack_wire_msg env wire = unpack_agent_message env wire)
    ∧ (unpack_wire_msg env wire = none →
      handle_incoming env route wire = .dropped) := by
  refine ⟨?_, ?_, ?_, ?_⟩
  · intro m hdes htype
    refine ⟨?_, deserialize_context hdes⟩
    simp only [unpack_wire_msg, hdes, htype]
    rfl
  · intro m hdes htype
    simp only [unpack_wire_msg, hdes, htype]
    rfl
  · intro hdes
    simp only [unpack_wire_msg, hdes]
  · intro hnone
    simp only [handle_incoming, hnone]

/-- C4, witnessed: a concrete plaintext `@type` message is returned with no
context even under an environment whose decryption would succeed; a
concrete non-JSON wire under a failing environment yields `none` and is
dropped by `handle_incoming`. -/
theorem claim_C4_witness :
    unpack_wire_msg envOk "\x7b\"@type\": \"x\"\x7d"
        = some { entries := [("@type", Json.str "x")], context := none }
    ∧ unpack_wire_msg envStub "zz" = unpack_agent_message envStub "zz"
    ∧ handle_incoming envStub routeStub "zz" = .dropped := by
  refine ⟨?_, ?_, ?_⟩
  · exact ((claim_C4 envOk routeStub "\x7b\"@type\": \"x\"\x7d").1
      { entries := [("@type", Json.str "x")], context := none } (by rfl) (by rfl)).1
  · exact (claim_C4 envStub routeStub "zz").2.2.1 (by rfl)
  · exact (claim_C4 envStub routeStub "zz").2.2.2 (by rfl)

/-- C5, the counterexample to the claim as stated: the plaintext path of a
successful unpack returns the message with *no* context attached — so
`to_key` is not "always present" after every successful unpack. -/
theorem claim_C5_counterexample :
    unpack_wire_msg envStub "\x7b\"@type\": \"x\"\x7d"
        = some { entries := [("@type", Json.str "x")], context := none }
    ∧ ({ entries := [("@type", Json.str "x")], context := none } : Msg).context
        = none :=
  ⟨rfl, rfl⟩

/-- C5 (corrected): every message returned by the authenticated-decryption
path (`unpack_agent_message`) carries an attached context — whose `to_key`
field is non-optional by construction while the other three fields may be
`none` — and no freshly deserialized message carries a context before
unpacking; but a message returned through the unauthenticated-plaintext
path of `unpack_wire_msg` carries no context at all (see the
counterexample), so "context with `to_key` always present" holds only for
the decryption path. -/
theorem claim_C5 :
    (∀ (env : AgentEnv) (wire : String) (m : Msg),
      unpack_agent_message env wire = some m →
      ∃ ctx : MsgContext, m.context = some ctx)
    ∧ (∀ (s : String) (m : Msg), deserialize s = some m → m.context = none) := by
  constructor
  · intro env wire m h
    simp only [unpack_agent_message] at h
    split at h
    · exact absurd h (by simp)
    · split at h
      · exact absurd h (by simp)
      · cases h
        exact ⟨_, rfl⟩
  · intro s m h
    exact deserialize_context h

/-- C5, witnessed: a concrete decryption-path unpack carries a context, and
a concrete deserialized message carries none. -/
theorem claim_C5_witness :
    (∃ ctx : MsgContext,
      (Msg.context { entries := [("a", Json.num 1)]
                     context := some (MsgContext.mk none none none "rk") })
        = some ctx)
    ∧ ({ entries := [("a", Json.num 1)], context := none } : Msg).context = none := by
  constructor
  · exact (claim_C5).1 envOk "wire"
      { entries := [("a", Json.num 1)]
        context := some (MsgContext.mk none none none "rk") } (by rfl)
  · exact (claim_C5).2 "\x7b\"a\": 1\x7d" { entries := [("a", Json.num 1)], context := none }
      (by rfl)

theorem start_length (env : AgentEnv) (route : Msg → Except String (Option Msg)) :
    ∀ q : List String, (start env route q).length = q.length
  | [] => rfl
  | w :: q => by
    simp only [start, List.length_cons, start_length env route q]

/-- C6 (confirmed): the processing loop yields exactly one outcome per
queued wire message, in arrival order; a failing message in the middle
(failed unpack ⇒ `dropped`, a raising handler ⇒ `caught`, both ordinary
values of the per-message boundary `handle_incoming`) leaves the processing
of everything before and after it unchanged, and no message is processed
twice. -/
theorem claim_C6 (env : AgentEnv) (route : Msg → Except String (Option Msg))
    (q1 q2 : List String) (w : String) :
    start env route (q1 ++ w :: q2)
        = start env route q1 ++ handle_incoming env route w :: start env route q2
    ∧ (start env route (q1 ++ w :: q2)).length = q1.length + 1 + q2.length := by
  constructor
  · induction q1 with
    | nil => rfl
    | cons x xs ih =>
      simp only [List.cons_append, start, List.append_eq, ih]
  · rw [start_length]
    simp [List.length_append]
    omega

/-- C7 (confirmed): the inviter's Response is built with its `@id` equal to
the validated Request's `@id` (thread continuity), its `connection = {DID,
DIDDoc}` payload signed with the invitation's one-time key as the signer,
and the cleartext `connection` field deleted before transmission, so that
only `connection~sig` is present on the wire. -/
theorem claim_C7 (now : Nat) (request : Msg)
    (req_id connection_key my_did my_vk endpoint : String)
    (hreq : msgLookup request "@id" = some (.str req_id)) :
    msgLookup (suite_build_response now req_id connection_key my_did my_vk endpoint)
        "@id" = msgLookup request "@id"
    ∧ msgLookup (suite_build_response now req_id connection_key my_did my_vk endpoint)
        "connection" = none
    ∧ msgLookup (suite_build_response now req_id connection_key my_did my_vk endpoint)
        "connection~sig"
        = some (SignedField.toJson (sign_agent_message_field now
            (Json.obj [("DID", .str my_did), ("DIDDoc", didDocJson my_did my_vk endpoint)])
            connection_key))
    ∧ (sign_agent_message_field now
        (Json.obj [("DID", .str my_did), ("DIDDoc", didDocJson my_did my_vk endpoint)])
        connection_key).signer = connection_key := by
  refine ⟨?_, rfl, rfl, rfl⟩
  rw [hreq]
  rfl

/-- C7, witnessed at a concrete request and concrete identities. -/
theorem claim_C7_witness :
    msgLookup (suite_build_response 3 "req7" "onetimeK" "didI" "vkI" "http://inviter")
        "@id" = msgLookup { entries := [("@id", Json.str "req7")], context := none } "@id"
    ∧ msgLookup (suite_build_response 3 "req7" "onetimeK" "didI" "vkI" "http://inviter")
        "connection" = none :=
  ⟨(claim_C7 3 { entries := [("@id", Json.str "req7")], context := none }
      "req7" "onetimeK" "didI" "vkI" "http://inviter" (by rfl)).1,
   (claim_C7 3 { entries := [("@id", Json.str "req7")], context := none }
      "req7" "onetimeK" "didI" "vkI" "http://inviter" (by rfl)).2.1⟩

theorem get_verified_ok {sf : SignedField} {payload : Json}
    (h : get_verified_data_from_signed_field sf = .ok payload) :
    unpack_and_verify_signed_agent_message_field sf = .ok (payload, true) := by
  simp only [get_verified_data_from_signed_field] at h
  split at h
  · exact absurd h (by simp)
  · rename_i p hmatch
    split at h
    · rename_i hv
      cases h
      simp only [hv] at hmatch
      exact hmatch
    · exact absurd h (by simp)

/-- C8, the counterexample to the claim as stated: a Response whose `@id`
does not match the original Request's `@id` (here `"other"` vs `"abc"`)
passes the structural pre-signature validation (whose call site receives
only the response, so it cannot compare against the request's `@id`), goes
through signature verification and reconstruction, and is rejected only by
the full *post*-verification validation — not "strictly before signature
verification" as claimed. -/
theorem claim_C8_counterexample :
    response_validate_pre_sig
        (suite_build_response 0 "other" "connkey" "did1" "vk1" "http://ep") = true
    ∧ invitee_handle_response "abc"
        (suite_build_response 0 "other" "connkey" "did1" "vk1" "http://ep")
        = .error .postInvalid :=
  ⟨rfl, rfl⟩

/-- C8 (corrected): the invitee validates structural shape
(`connection~sig` present) strictly before signature verification; the
`@id` match against the original Request's `@id` is performed only in the
full post-verification validation, against the plaintext reconstructed
from the verified payload; and the invitee reaches `ResponseVerified`
(`Except.ok`) only when the structural check, the signature verification,
and the full validation (including the `@id` match) all succeed. -/
theorem claim_C8 (req_id : String) (r : Msg) :
    (response_validate_pre_sig r = false →
      invitee_handle_response req_id r = .error .preSigInvalid)
    ∧ (∀ m, invitee_handle_response req_id r = .ok m →
      response_validate_pre_sig r = true
      ∧ ∃ sf payload,
          (msgLookup r "connection~sig").bind sfOfJson = some sf
          ∧ unpack_and_verify_signed_agent_message_field sf = .ok (payload, true)
          ∧ m = msgSet r "connection" payload
          ∧ response_validate m req_id = true) := by
  constructor
  · intro h
    simp only [invitee_handle_response, h]
  · intro m h
    by_cases hpre : response_validate_pre_sig r = false
    · simp only [invitee_handle_response, hpre] at h
      exact absurd h (by simp)
    · have hpre2 : response_validate_pre_sig r = true := by
        cases hb : response_validate_pre_sig r
        · exact absurd hb hpre
        · rfl
      refine ⟨hpre2, ?_⟩
      cases hsf : (msgLookup r "connection~sig").bind sfOfJson with
      | none =>
        simp only [invitee_handle_response, hpre2, hsf] at h
        exact absurd h (by simp)
      | some sf =>
        simp only [invitee_handle_response, hpre2, hsf] at h
        cases hconn : get_verified_data_from_signed_field sf with
        | error e =>
          simp only [hconn] at h
          exact absurd h (by simp)
        | ok conn =>
          simp only [hconn] at h
          cases hval : response_validate (msgSet r "connection" conn) req_id with
          | false =>
            simp only [hval] at h
            exact absurd h (by simp)
          | true =>
            simp only [hval] at h
            cases h
            exact ⟨sf, conn, rfl, get_verified_ok hconn, rfl, hval⟩

/-- C8, witnessed: a concrete response without `connection~sig` is rejected
before verification, and a concrete well-signed response with the matching
`@id` reaches `ResponseVerified` with all stage facts. -/
theorem claim_C8_witness :
    invitee_handle_response "abc" { entries := [("@id", Json.str "abc")], context := none }
        = .error .preSigInvalid
    ∧ (response_validate_pre_sig
          (suite_build_response 0 "same" "connkey" "did1" "vk1" "http://ep") = true
       ∧ ∃ sf payload,
          (msgLookup (suite_build_response 0 "same" "connkey" "did1" "vk1" "http://ep")
              "connection~sig").bind sfOfJson = some sf
          ∧ unpack_and_verify_signed_agent_message_field sf = .ok (payload, true)
          ∧ msgSet (suite_build_response 0 "same" "connkey" "did1" "vk1" "http://ep")
              "connection" payload
            = msgSet (suite_build_response 0 "same" "connkey" "did1" "vk1" "http://ep")
              "connection" payload
          ∧ response_validate
              (msgSet (suite_build_response 0 "same" "connkey" "did1" "vk1" "http://ep")
                "connection" payload) "same" = true) := by
  constructor
  · exact (claim_C8 "abc" { entries := [("@id", Json.str "abc")], context := none }).1
      (by rfl)
  · have h := (claim_C8 "same"
      (suite_build_response 0 "same" "connkey" "did1" "vk1" "http://ep")).2
      (msgSet (suite_build_response 0 "same" "connkey" "did1" "vk1" "http://ep")
        "connection"
        (Json.obj [("DID", Json.str "did1"), ("DIDDoc", didDocJson "did1" "vk1" "http://ep")]))
      (by rfl)
    obtain ⟨hpre, sf, payload, hsf, hver, hm, hval⟩ := h
    exact ⟨hpre, sf, payload, hsf, hver, rfl, hm ▸ hval⟩

/-- C9 (confirmed, `FamilyRouter.register` modelled from the spec):
registering a module under a family identifier already present in the
router table is an error, the table is unchanged (so the original module
stays mapped and at most one module is mapped per family identifier
rather than being silently replaced); registering under a fresh family
identifier succeeds and adds exactly that mapping.  (The agent-side
`self.modules` cache at `agent.py:49` is a plain dict assignment performed
before the router's check.) -/
theorem claim_C9 {M : Type} (st : RegState M) (family : String) (m m0 : M) :
    (assocLookup st.router family = some m0 →
      (∃ e, (register_module st family m).1 = .error e)
      ∧ ((register_module st family m).2).router = st.router
      ∧ assocLookup ((register_module st family m).2).router family = some m0)
    ∧ (assocLookup st.router family = none →
      (register_module st family m).1 = .ok ()
      ∧ ((register_module st family m).2).router = st.router ++ [(family, m)]) := by
  constructor
  · intro h
    have hreg : family_router_register st.router family m
        = .error "duplicate familyId" := by
      simp [family_router_register, h]
    refine ⟨⟨"duplicate familyId", ?_⟩, ?_, ?_⟩
    · simp only [register_module, hreg]
    · simp only [register_module, hreg]
    · simp only [register_module, hreg]
      exact h
  · intro h
    have hreg : family_router_register st.router family m
        = .ok (st.router ++ [(family, m)]) := by
      simp [family_router_register, h]
    constructor
    · simp only [register_module, hreg]
    · simp only [register_module, hreg]

/-- C9, witnessed: a duplicate registration over a one-entry table errors
and keeps the old module; a fresh registration succeeds. -/
theorem claim_C9_witness :
    (∃ e, (register_module (RegState.mk [] [("fam", 1)]) "fam" 2).1 = .error e)
    ∧ ((register_module (RegState.mk [] [("fam", 1)]) "fam" 2).2).router = [("fam", 1)]
    ∧ assocLookup ((register_module (RegState.mk [] [("fam", 1)]) "fam" 2).2).router
        "fam" = some 1
    ∧ (register_module (RegState.mk ([] : List (String × Nat)) []) "fam" 2).1
        = .ok () := by
  have h1 := (claim_C9 (RegState.mk [] [("fam", 1)]) "fam" 2 1).1 (by rfl)
  have h2 := (claim_C9 (RegState.mk ([] : List (String × Nat)) []) "fam" 2 1).2 (by rfl)
  exact ⟨h1.1, h1.2.1, h1.2.2, h2.1⟩

/-- C10 (confirmed): `send_admin_message` enqueues the message as plaintext
JSON whenever the admin key or the agent admin key is unset, and packs
(encrypts) it to the admin key with the agent admin key as sender — before
enqueueing — exactly when both are set. -/
theorem claim_C10 (env : AgentEnv) (st : AdminSt) (msg : Msg) :
    ((st.admin_key = none ∨ st.agent_admin_key = none) →
      send_admin_message env st msg
        = { st with outbound_admin_message_queue :=
              st.outbound_admin_message_queue ++ [Msg.as_json msg] })
    ∧ (∀ ak aak, st.admin_key = some ak → st.agent_admin_key = some aak →
      send_admin_message env st msg
        = { st with outbound_admin_message_queue :=
              st.outbound_admin_message_queue
                ++ [env.pack_message (serialize msg) [ak] (some aak)] }) := by
  constructor
  · intro h
    rcases h with h | h
    · cases haak : st.agent_admin_key with
      | none => simp only [send_admin_message, haak]
      | some aak => simp only [send_admin_message, haak, h]
    · simp only [send_admin_message, h]
  · intro ak aak h1 h2
    simp only [send_admin_message, h1, h2]

/-- C10, witnessed: with the admin key unset the plaintext JSON is
enqueued; with both keys set the packed envelope is enqueued. -/
theorem claim_C10_witness :
    send_admin_message envStub
        (AdminSt.mk none (some "aak") [])
        { entries := [("@type", Json.str "t")], context := none }
      = AdminSt.mk none (some "aak")
          [Msg.as_json { entries := [("@type", Json.str "t")], context := none }]
    ∧ send_admin_message envStub
        (AdminSt.mk (some "ak") (some "aak") [])
        { entries := [("@type", Json.str "t")], context := none }
      = AdminSt.mk (some "ak") (some "aak")
          [envStub.pack_message
            (serialize { entries := [("@type", Json.str "t")], context := none })
            ["ak"] (some "aak")] := by
  constructor
  · exact (claim_C10 envStub (AdminSt.mk none (some "aak") [])
      { entries := [("@type", Json.str "t")], context := none }).1 (Or.inl rfl)
  · exact (claim_C10 envStub (AdminSt.mk (some "ak") (some "aak") [])
      { entries := [("@type", Json.str "t")], context := none }).2 "ak" "aak" rfl rfl

end IndyAgent
